import Mathlib

/-!
# Proteus guest accessor macros (`Proteus/TProteusMacros.h`)

A shallow embedding of the macro layer through which native patches reach
the emulated register file and the emulated RAM, followed by theorems about
it.  Machine words are natural numbers reduced modulo `2^32` wherever the
C++ code converts to `KUInt32`.

The macros are text: their operands are expressions of the patch, so the
stack macros take the assignable expression `sp` itself (a register slot or
a variable) and read it again after they have changed it.  Every operation
returns the state it leaves behind together with its result; a memory call
that fails with `MemoryFault` ends the operation at that call, and the state
returned is the one reached by then.
-/

namespace NewtOS

/-! ## Machine words -/

/-! A 32-bit unsigned word (`KUInt32`) and a guest virtual address
(`TMemory::VAddr`) are both kept as natural numbers below `wordMod`. -/

/-- The modulus of 32-bit unsigned arithmetic. -/
def wordMod : Nat := 4294967296

/-- Conversion of a non-negative integer to `KUInt32`. -/
def toU32 (n : Nat) : Nat := n % wordMod

/-- The C++ expression `a + b` stored into a `KUInt32`. -/
def add32 (a b : Nat) : Nat := (a + b) % wordMod

/-- The C++ expression `a - b` stored into a `KUInt32` (two's complement wrap). -/
def sub32 (a b : Nat) : Nat := (a % wordMod + (wordMod - b % wordMod)) % wordMod

/-! ## The memory subsystem -/

/-- One call into the memory subsystem: its direction and the guest address. -/
structure MemAccess where
  isWrite : Bool
  addr : Nat
deriving DecidableEq, Repr

/-- The failure the memory subsystem raises for an address it rejects. -/
structure MemoryFault where
  isWrite : Bool
  addr : Nat
deriving DecidableEq, Repr

/-- Modelled from the spec: the memory subsystem `TMemory` (its header
`TMemory.h` is not among the sources).  The guest address space is flat and
byte addressable; `bytes` holds the byte at each guest address, `readable`
and `writable` tell which word addresses the subsystem accepts, `bigEndian`
is the byte order the subsystem normalises to, and `log` records every call
made into the subsystem, oldest first. -/
structure TMemory where
  bytes : Nat → Nat
  readable : Nat → Bool
  writable : Nat → Bool
  bigEndian : Bool
  log : List MemAccess

/-- Address of the byte that carries bits `8*i .. 8*i+7` of the word at `a`. -/
def byteAddr (be : Bool) (a : Nat) (i : Nat) : Nat :=
  (a + (if be then 3 - i else i)) % wordMod

/-- Modelled from the spec: the 32-bit word made of the four bytes that
start at guest address `a` in the byte store `b` (part of the absent
`TMemory`). -/
def wordAt (be : Bool) (b : Nat → Nat) (a : Nat) : Nat :=
  b (byteAddr be a 0) % 256
    + 256 * (b (byteAddr be a 1) % 256)
    + 65536 * (b (byteAddr be a 2) % 256)
    + 16777216 * (b (byteAddr be a 3) % 256)

/-- Modelled from the spec: the 32-bit word currently held at guest address
`a` (part of the absent `TMemory`). -/
def TMemory.word (m : TMemory) (a : Nat) : Nat := wordAt m.bigEndian m.bytes a

/-- Modelled from the spec: the byte store after the four bytes of `w` are
placed at guest address `a` (part of the absent `TMemory`). -/
def storeWord (be : Bool) (b : Nat → Nat) (a : Nat) (w : Nat) : Nat → Nat :=
  fun x =>
    if x = byteAddr be a 0 then w % 256
    else if x = byteAddr be a 1 then w / 256 % 256
    else if x = byteAddr be a 2 then w / 65536 % 256
    else if x = byteAddr be a 3 then w / 16777216 % 256
    else b x

/-- Modelled from the spec: `TMemory::Read(VAddr, KUInt32&)`, the word read
of the absent memory subsystem: `ReadWord(guestAddress) -> word`, failing
with `MemoryFault` on an address the subsystem rejects.  The call is
recorded in the log; the bytes are never changed by a read. -/
def TMemory.Read (m : TMemory) (addr : Nat) : TMemory × Except MemoryFault Nat :=
  let a := toU32 addr
  let m1 : TMemory := { m with log := m.log ++ [⟨false, a⟩] }
  if m.readable a then (m1, .ok (m.word a)) else (m1, .error ⟨false, a⟩)

/-- Modelled from the spec: `TMemory::Write(VAddr, KUInt32)`, the word write
of the absent memory subsystem: `WriteWord(guestAddress, word)`, failing with
`MemoryFault` on an address the subsystem rejects, in which case no byte
changes.  The call is recorded in the log. -/
def TMemory.Write (m : TMemory) (addr : Nat) (w : Nat) : TMemory × Except MemoryFault Unit :=
  let a := toU32 addr
  let m1 : TMemory := { m with log := m.log ++ [⟨true, a⟩] }
  if m.writable a then
    ({ m1 with bytes := storeWord m.bigEndian m.bytes a (toU32 w) }, .ok ())
  else (m1, .error ⟨true, a⟩)

/-! ## The processor state and the patch environment -/

/-- The part of `TARMProcessor` the macros touch: the current register bank,
`KUInt32 mCurrentRegisters[16]`. -/
structure TARMProcessor where
  mCurrentRegisters : Fin 16 → Nat

/-- Everything a native patch can reach through the macros: the globals `CPU`
and `MEM`, and the `KUInt32` variables of the patch itself. -/
structure World where
  CPU : TARMProcessor
  MEM : TMemory
  vars : Nat → Nat

/-- An assignable `KUInt32` expression handed to a macro: a register slot
`CPU->mCurrentRegisters[i]` or a variable of the patch. -/
inductive LValue where
  | reg (i : Fin 16)
  | var (k : Nat)
deriving DecidableEq, Repr

/-- A value operand handed to a macro: a constant or the current content of
an assignable expression. -/
inductive RValue where
  | lit (n : Nat)
  | lv (l : LValue)
deriving DecidableEq, Repr

/-- Reading an assignable expression. -/
def World.load (s : World) : LValue → Nat
  | .reg i => s.CPU.mCurrentRegisters i
  | .var k => s.vars k

/-- Assigning to an assignable expression; the value is converted to `KUInt32`. -/
def World.assign (s : World) (l : LValue) (v : Nat) : World :=
  match l with
  | .reg i => { s with CPU := ⟨Function.update s.CPU.mCurrentRegisters i (toU32 v)⟩ }
  | .var k => { s with vars := Function.update s.vars k (toU32 v) }

/-- Evaluating a value operand in the current state. -/
def World.eval (s : World) : RValue → Nat
  | .lit n => n
  | .lv l => s.load l

/-! ## Accessing the registers (`R0` .. `R15`, `SP`, `LR`, `PC`) -/

def R0 : LValue := .reg 0
def R1 : LValue := .reg 1
def R2 : LValue := .reg 2
def R3 : LValue := .reg 3
def R4 : LValue := .reg 4
def R5 : LValue := .reg 5
def R6 : LValue := .reg 6
def R7 : LValue := .reg 7
def R8 : LValue := .reg 8
def R9 : LValue := .reg 9
def R10 : LValue := .reg 10
def R11 : LValue := .reg 11
def R12 : LValue := .reg 12
def R13 : LValue := .reg 13
def SP : LValue := .reg 13
def R14 : LValue := .reg 14
def LR : LValue := .reg 14
def R15 : LValue := .reg 15
def PC : LValue := .reg 15

/-! ## The macros -/

/-- The pointer a patch returns: `none` is `nullptr`, no native continuation. -/
abbrev JITContinuation := Option Nat

/-- Source text: `#define EXIT(addr) { R15 = addr+4; return nullptr; }` : the state after
the assignment and the value the patch returns. -/
def EXIT (addr : RValue) (s : World) : World × JITContinuation :=
  (s.assign R15 (add32 (s.eval addr) 4), none)

/-- Source text: `#define PUSH(sp, w) { sp-=4; MEM->Write(sp, w); }` : both
arguments of the call are evaluated after the decrement. -/
def PUSH (sp : LValue) (w : RValue) (s : World) : World × Except MemoryFault Unit :=
  let s1 := s.assign sp (sub32 (s.load sp) 4)
  let r := s1.MEM.Write (s1.load sp) (s1.eval w)
  ({ s1 with MEM := r.1 }, r.2)

/-- Source text: `#define POP(sp, w) { MEM->Read(sp, w); sp+=4; }` : the word
read is stored into `w`, then `sp` is read again and advanced. -/
def POP (sp : LValue) (w : LValue) (s : World) : World × Except MemoryFault Unit :=
  let r := s.MEM.Read (s.load sp)
  let s1 : World := { s with MEM := r.1 }
  match r.2 with
  | .error f => (s1, .error f)
  | .ok v =>
    let s2 := s1.assign w v
    (s2.assign sp (add32 (s2.load sp) 4), .ok ())

/-- Source text: `#define RPOP(sp, w) { sp-=4; MEM->Read(sp, w); }` -/
def RPOP (sp : LValue) (w : LValue) (s : World) : World × Except MemoryFault Unit :=
  let s1 := s.assign sp (sub32 (s.load sp) 4)
  let r := s1.MEM.Read (s1.load sp)
  let s2 : World := { s1 with MEM := r.1 }
  match r.2 with
  | .error f => (s2, .error f)
  | .ok v => (s2.assign w v, .ok ())

/-- Source text: `inline KUInt32 PEEK_W(KUInt32 addr) { KUInt32 w; MEM->Read(addr, w); return w; }` -/
def PEEK_W (addr : Nat) (s : World) : World × Except MemoryFault Nat :=
  let r := s.MEM.Read (toU32 addr)
  ({ s with MEM := r.1 }, r.2)

/-- Source text: `#define POKE_W(addr, w) { MEM->Write(addr, w); }` -/
def POKE_W (addr : RValue) (w : RValue) (s : World) : World × Except MemoryFault Unit :=
  let r := s.MEM.Write (s.eval addr) (s.eval w)
  ({ s with MEM := r.1 }, r.2)

/-! ## Typed accessor generation -/

/-- A word-policy host type of the accessor macros: an integer type of `bits`
bits, signed or unsigned. -/
structure IntType where
  bits : Nat
  signed : Bool
deriving DecidableEq, Repr

/-- The values an integer type can hold. -/
def IntType.holds (T : IntType) (v : Int) : Prop :=
  if T.signed then -(2 : Int) ^ (T.bits - 1) ≤ v ∧ v < (2 : Int) ^ (T.bits - 1)
  else 0 ≤ v ∧ v < (2 : Int) ^ T.bits

instance (T : IntType) (v : Int) : Decidable (T.holds v) := by
  unfold IntType.holds; exact inferInstance

/-- The cast `(type)w` of a `KUInt32` to an integer type (modular). -/
def IntType.ofWord (T : IntType) (w : Nat) : Int :=
  if T.signed then
    ((w : Int) + (2 : Int) ^ (T.bits - 1)) % (2 : Int) ^ T.bits - (2 : Int) ^ (T.bits - 1)
  else (w : Int) % (2 : Int) ^ T.bits

/-- The cast `(KUInt32)v` of an integer value (modular). -/
def IntType.toWord (v : Int) : Nat := (v % (wordMod : Int)).toNat

/-- The cast `(uintptr_t)x` on a host whose pointers have `ptrBits` bits. -/
def toUIntPtr (ptrBits : Nat) (x : Nat) : Nat := x % 2 ^ ptrBits

/-- The cast `(type)(uintptr_t)w` of the pointer-width policy. -/
def ptrOfWord (ptrBits : Nat) (w : Nat) : Nat := toUIntPtr ptrBits w

/-- The cast `(KUInt32)(uintptr_t)v` of the pointer-width policy. -/
def wordOfPtr (ptrBits : Nat) (v : Nat) : Nat := toU32 (toUIntPtr ptrBits v)

/-- The result of a getter: the state afterwards and the value or the fault. -/
def getResult {α β : Type} (s : World) (f : α → β)
    (r : TMemory × Except MemoryFault α) : World × Except MemoryFault β :=
  ({ s with MEM := r.1 },
    match r.2 with
    | .ok w => .ok (f w)
    | .error e => .error e)

namespace GLOBAL_GETSET_W

/-- Source text: `const TMemory::VAddr g##name = addr;` -/
def g (addr : Nat) : Nat := toU32 addr

/-- Source text: `type GetG##name() { KUInt32 w; MEM->Read(g##name, w); return (type)w; }` -/
def GetG (addr : Nat) (T : IntType) (s : World) : World × Except MemoryFault Int :=
  getResult s T.ofWord (s.MEM.Read (g addr))

/-- Source text: `void SetG##name(type v) { KUInt32 w=(KUInt32)v; MEM->Write(g##name, w); }` -/
def SetG (addr : Nat) (v : Int) (s : World) : World × Except MemoryFault Unit :=
  let w := IntType.toWord v
  let r := s.MEM.Write (g addr) w
  ({ s with MEM := r.1 }, r.2)

end GLOBAL_GETSET_W

namespace GLOBAL_GETSET_P

/-- Source text: `const TMemory::VAddr g##name = addr;` -/
def g (addr : Nat) : Nat := toU32 addr

/-- Source text: `type GetG##name() { KUInt32 w; MEM->Read(g##name, w); return (type)(uintptr_t)w; }` -/
def GetG (ptrBits : Nat) (addr : Nat) (s : World) : World × Except MemoryFault Nat :=
  getResult s (ptrOfWord ptrBits) (s.MEM.Read (g addr))

/-- Source text: `void SetG##name(type v) { KUInt32 w=(KUInt32)(uintptr_t)v; MEM->Write(g##name, w); }` -/
def SetG (ptrBits : Nat) (addr : Nat) (v : Nat) (s : World) : World × Except MemoryFault Unit :=
  let w := wordOfPtr ptrBits v
  let r := s.MEM.Write (g addr) w
  ({ s with MEM := r.1 }, r.2)

end GLOBAL_GETSET_P

/-- The field address `((KUInt32)(uintptr_t)this)+offset` of the member
accessors, converted to `VAddr`; `this` is the host-side handle. -/
def memberAddr (ptrBits : Nat) (this : Nat) (offset : Nat) : Nat :=
  add32 (toU32 (toUIntPtr ptrBits this)) offset

namespace T_GETSET_MEMBER_W

/-- Source text: `type Get##name() { KUInt32 w; MEM->Read(((KUInt32)(uintptr_t)this)+offset, w); return (type)w; }` -/
def Get (ptrBits : Nat) (offset : Nat) (T : IntType) (this : Nat) (s : World) :
    World × Except MemoryFault Int :=
  getResult s T.ofWord (s.MEM.Read (memberAddr ptrBits this offset))

/-- Source text: `void Set##name(type w) { KUInt32 v = (KUInt32)w; MEM->Write(((KUInt32)(uintptr_t)this)+offset, v); }` -/
def Set (ptrBits : Nat) (offset : Nat) (this : Nat) (w : Int) (s : World) :
    World × Except MemoryFault Unit :=
  let v := IntType.toWord w
  let r := s.MEM.Write (memberAddr ptrBits this offset) v
  ({ s with MEM := r.1 }, r.2)

end T_GETSET_MEMBER_W

namespace T_GETSET_MEMBER_P

/-- Source text: `type Get##name() { KUInt32 w; MEM->Read(((KUInt32)(uintptr_t)this)+offset, w); return (type)(uintptr_t)w; }` -/
def Get (ptrBits : Nat) (offset : Nat) (this : Nat) (s : World) :
    World × Except MemoryFault Nat :=
  getResult s (ptrOfWord ptrBits) (s.MEM.Read (memberAddr ptrBits this offset))

/-- Source text: `void Set##name(type w) { KUInt32 v = (KUInt32)(uintptr_t)w; MEM->Write(((KUInt32)(uintptr_t)this)+offset, v); }` -/
def Set (ptrBits : Nat) (offset : Nat) (this : Nat) (w : Nat) (s : World) :
    World × Except MemoryFault Unit :=
  let v := wordOfPtr ptrBits w
  let r := s.MEM.Write (memberAddr ptrBits this offset) v
  ({ s with MEM := r.1 }, r.2)

end T_GETSET_MEMBER_P

/-! ## Vocabulary of the statements -/

/-- Two word addresses whose four bytes do not meet: they lie at least four
bytes apart in both directions around the 32-bit address space. -/
def WordsApart (a c : Nat) : Prop := 4 ≤ sub32 c a ∧ 4 ≤ sub32 a c

instance (a c : Nat) : Decidable (WordsApart a c) := by
  unfold WordsApart; exact inferInstance

/-- A memory with every byte zero and every address accepted. -/
def zeroMem : TMemory :=
  { bytes := fun _ => 0, readable := fun _ => true, writable := fun _ => true,
    bigEndian := true, log := [] }

/-- A memory with every byte equal to `fill` in which the subsystem accepts
only the addresses below `limit`. -/
def guardedMem (fill limit : Nat) : TMemory :=
  { bytes := fun _ => fill, readable := fun a => decide (a < limit),
    writable := fun a => decide (a < limit), bigEndian := true, log := [] }

/-- A state over the given memory with every register and variable zero
except the stack pointer, which holds `S`. -/
def startWorld (m : TMemory) (S : Nat) : World :=
  { CPU := ⟨fun i => if i = 13 then S else 0⟩, MEM := m, vars := fun _ => 0 }

/-- The outcome `r` of an operation started in `s` that made exactly one call
`acc` into the memory subsystem, which rejected it: the fault comes back to
the caller, the call is the only new entry of the log, and no byte of memory
has changed. -/
def FaultsOnce {α : Type} (s : World) (r : World × Except MemoryFault α) (acc : MemAccess) :
    Prop :=
  r.2 = .error ⟨acc.isWrite, acc.addr⟩ ∧ r.1.MEM.log = s.MEM.log ++ [acc]
    ∧ r.1.MEM.bytes = s.MEM.bytes

/-- Every register and every variable of the patch holds in `t` what it held in `s`. -/
def SameRegisters (s t : World) : Prop := t.CPU = s.CPU ∧ t.vars = s.vars

/-- Every assignable expression other than `sp` holds in `t` what it held in
`s`, and `sp` holds `v`. -/
def OnlyMoved (sp : LValue) (v : Nat) (s t : World) : Prop :=
  t.load sp = v ∧ ∀ l, l ≠ sp → t.load l = s.load l

/-- The getter of a word-policy global as the claim about caching words it:
the conversion to `T` of what `PEEK_W(G)` returns now. -/
def GetG_byPEEK (G : Nat) (T : IntType) (s : World) : World × Except MemoryFault Int :=
  let r := PEEK_W G s
  (r.1, match r.2 with
        | .ok w => .ok (T.ofWord w)
        | .error e => .error e)

/-- The setter of a word-policy global as the claim about caching words it:
`POKE_W(G, (KUInt32)v)`. -/
def SetG_byPOKE (G : Nat) (v : Int) (s : World) : World × Except MemoryFault Unit :=
  POKE_W (.lit G) (.lit (IntType.toWord v)) s

/-- A patch that pushes the words of a list in order, `PUSH(sp, w1); ...;
PUSH(sp, wn);`, stopping at the first fault. -/
def pushList (sp : LValue) : List Nat → World → World × Except MemoryFault Unit
  | [], s => (s, .ok ())
  | w :: ws, s =>
    match PUSH sp (.lit w) s with
    | (s1, .ok ()) => pushList sp ws s1
    | (s1, .error f) => (s1, .error f)

/-- A patch that runs `POP(sp, X);` `n` times and notes what `X` holds after
each of them, first pop first, stopping at the first fault. -/
def popList (sp X : LValue) : Nat → World → World × Except MemoryFault (List Nat)
  | 0, s => (s, .ok [])
  | n + 1, s =>
    match POP sp X s with
    | (s1, .ok ()) =>
      match popList sp X n s1 with
      | (s2, .ok vs) => (s2, .ok (s1.load X :: vs))
      | (s2, .error f) => (s2, .error f)
    | (s1, .error f) => (s1, .error f)

/-! ## Basic facts about words and the memory model -/

theorem toU32_lt (n : Nat) : toU32 n < wordMod := by
  unfold toU32 wordMod; omega

theorem toU32_of_lt {n : Nat} (h : n < wordMod) : toU32 n = n := by
  unfold toU32; exact Nat.mod_eq_of_lt h

theorem toU32_toU32 (n : Nat) : toU32 (toU32 n) = toU32 n := by
  unfold toU32 wordMod; omega

theorem toU32_add32 (a b : Nat) : toU32 (add32 a b) = add32 a b := by
  unfold toU32 add32 wordMod; omega

theorem toU32_sub32 (a b : Nat) : toU32 (sub32 a b) = sub32 a b := by
  unfold toU32 sub32 wordMod; omega

theorem add32_sub32_cancel {S : Nat} (h : S < wordMod) : add32 (sub32 S 4) 4 = S := by
  unfold add32 sub32 wordMod at *; omega

theorem sub32_add32_cancel {S : Nat} (h : S < wordMod) : sub32 (add32 S 4) 4 = S := by
  unfold add32 sub32 wordMod at *; omega

theorem byteAddr_inj (be : Bool) (a : Nat) {i j : Nat} (hi : i < 4) (hj : j < 4) :
    byteAddr be a i = byteAddr be a j ↔ i = j := by
  unfold byteAddr wordMod
  cases be <;> simp only [if_true, if_false, Bool.false_eq_true] <;> omega

/-- A word read back from where it was stored is the stored word. -/
theorem wordAt_storeWord_same (be : Bool) (b : Nat → Nat) (a : Nat) (w : Nat) :
    wordAt be (storeWord be b a w) a = toU32 w := by
  simp only [wordAt, storeWord]
  have h10 := (byteAddr_inj be a (i := 1) (j := 0) (by omega) (by omega)).not.mpr (by omega)
  have h20 := (byteAddr_inj be a (i := 2) (j := 0) (by omega) (by omega)).not.mpr (by omega)
  have h21 := (byteAddr_inj be a (i := 2) (j := 1) (by omega) (by omega)).not.mpr (by omega)
  have h30 := (byteAddr_inj be a (i := 3) (j := 0) (by omega) (by omega)).not.mpr (by omega)
  have h31 := (byteAddr_inj be a (i := 3) (j := 1) (by omega) (by omega)).not.mpr (by omega)
  have h32 := (byteAddr_inj be a (i := 3) (j := 2) (by omega) (by omega)).not.mpr (by omega)
  simp only [h10, h20, h21, h30, h31, h32, if_true, if_false]
  unfold toU32 wordMod
  omega

/-- A byte outside the four bytes of the stored word keeps its content. -/
theorem storeWord_other (be : Bool) (b : Nat → Nat) (a : Nat) (w : Nat) (x : Nat)
    (h : ∀ i, i < 4 → x ≠ byteAddr be a i) : storeWord be b a w x = b x := by
  simp [storeWord, h 0 (by omega), h 1 (by omega), h 2 (by omega), h 3 (by omega)]

theorem byteAddr_ne_of_apart (be : Bool) {a c : Nat} (h : WordsApart a c) {i j : Nat}
    (hi : i < 4) (hj : j < 4) : byteAddr be c i ≠ byteAddr be a j := by
  unfold WordsApart sub32 at h
  unfold byteAddr
  unfold wordMod at *
  cases be <;> simp only [if_true, if_false, Bool.false_eq_true, ne_eq] <;> omega

/-- The word at an address whose bytes do not meet the stored word is unchanged. -/
theorem wordAt_storeWord_apart (be : Bool) (b : Nat → Nat) {a c : Nat} (w : Nat)
    (h : WordsApart a c) : wordAt be (storeWord be b a w) c = wordAt be b c := by
  simp only [wordAt]
  rw [storeWord_other _ _ _ _ _ (fun i hi => byteAddr_ne_of_apart _ h (by omega) hi),
    storeWord_other _ _ _ _ _ (fun i hi => byteAddr_ne_of_apart _ h (by omega) hi),
    storeWord_other _ _ _ _ _ (fun i hi => byteAddr_ne_of_apart _ h (by omega) hi),
    storeWord_other _ _ _ _ _ (fun i hi => byteAddr_ne_of_apart _ h (by omega) hi)]

theorem wordAt_lt (be : Bool) (b : Nat → Nat) (a : Nat) : wordAt be b a < wordMod := by
  unfold wordAt wordMod
  omega

theorem sub32_sub32 (S : Nat) : sub32 (sub32 S 4) 4 = sub32 S 8 := by
  unfold sub32 wordMod; omega

theorem wordsApart_sub32 (S : Nat) : WordsApart (sub32 S 4) (sub32 S 8) := by
  unfold WordsApart sub32 wordMod; omega

/-! ## Basic facts about the casts -/

theorem toWord_cast (v : Int) : ((IntType.toWord v : Nat) : Int) = v % 4294967296 := by
  unfold IntType.toWord wordMod
  have h : (0 : Int) ≤ v % 4294967296 := Int.emod_nonneg _ (by norm_num)
  simpa using Int.toNat_of_nonneg h

theorem toWord_lt (v : Int) : IntType.toWord v < wordMod := by
  have h := toWord_cast v
  have h2 : v % 4294967296 < 4294967296 := Int.emod_lt_of_pos _ (by norm_num)
  unfold wordMod
  omega

/-- The cast to `KUInt32` and back returns every value the integer type holds,
for a type of at most 32 bits. -/
theorem IntType.ofWord_toWord (T : IntType) (v : Int) (hb0 : 0 < T.bits) (hb : T.bits ≤ 32)
    (hv : T.holds v) : T.ofWord (IntType.toWord v) = v := by
  have hdvd : ((2 : Int) ^ T.bits) ∣ (4294967296 : Int) := by
    have : (4294967296 : Int) = 2 ^ 32 := by norm_num
    rw [this]
    exact pow_dvd_pow 2 hb
  have hpos : (0 : Int) < 2 ^ T.bits := by positivity
  have hsplit : (2 : Int) ^ T.bits = 2 * 2 ^ (T.bits - 1) := by
    rw [← pow_succ']
    congr 1
    omega
  unfold IntType.ofWord IntType.holds at *
  rw [toWord_cast]
  cases hs : T.signed
  · simp only [hs, Bool.false_eq_true, if_false] at hv ⊢
    rw [Int.emod_emod_of_dvd _ hdvd]
    exact Int.emod_eq_of_lt hv.1 hv.2
  · simp only [hs, if_true] at hv ⊢
    rw [Int.add_emod, Int.emod_emod_of_dvd _ hdvd, ← Int.add_emod]
    rw [Int.emod_eq_of_lt (by omega) (by omega)]
    omega

theorem ptrOfWord_wordOfPtr (ptrBits p : Nat) (hp : p < wordMod) (hpb : p < 2 ^ ptrBits) :
    ptrOfWord ptrBits (wordOfPtr ptrBits p) = p := by
  unfold ptrOfWord wordOfPtr toUIntPtr
  rw [Nat.mod_eq_of_lt hpb, toU32_of_lt hp, Nat.mod_eq_of_lt hpb]

/-! ## Basic facts about the state -/

@[simp] theorem load_assign_same (s : World) (l : LValue) (v : Nat) :
    (s.assign l v).load l = toU32 v := by
  cases l <;> simp [World.assign, World.load]

@[simp] theorem load_assign_other (s : World) {l k : LValue} (v : Nat) (h : k ≠ l) :
    (s.assign l v).load k = s.load k := by
  cases l <;> cases k <;> simp_all [World.assign, World.load, Function.update]

@[simp] theorem MEM_assign (s : World) (l : LValue) (v : Nat) : (s.assign l v).MEM = s.MEM := by
  cases l <;> rfl

@[simp] theorem eval_lit (s : World) (n : Nat) : s.eval (.lit n) = n := rfl

@[simp] theorem eval_lv (s : World) (l : LValue) : s.eval (.lv l) = s.load l := rfl

@[simp] theorem load_setMEM (s : World) (m : TMemory) (l : LValue) :
    World.load { s with MEM := m } l = s.load l := by
  cases l <;> rfl

theorem reg_assign_other (s : World) (i j : Fin 16) (v : Nat) (h : j ≠ i) :
    (s.assign (.reg i) v).CPU.mCurrentRegisters j = s.CPU.mCurrentRegisters j := by
  simp [World.assign, Function.update, h]

theorem Read_ok (m : TMemory) (a : Nat) (h : m.readable (toU32 a) = true) :
    m.Read a = ({ m with log := m.log ++ [⟨false, toU32 a⟩] }, .ok (m.word (toU32 a))) := by
  simp [TMemory.Read, h]

theorem Read_fault (m : TMemory) (a : Nat) (h : m.readable (toU32 a) = false) :
    m.Read a = ({ m with log := m.log ++ [⟨false, toU32 a⟩] }, .error ⟨false, toU32 a⟩) := by
  simp [TMemory.Read, h]

theorem Write_ok (m : TMemory) (a w : Nat) (h : m.writable (toU32 a) = true) :
    m.Write a w = ({ m with log := m.log ++ [⟨true, toU32 a⟩],
                            bytes := storeWord m.bigEndian m.bytes (toU32 a) (toU32 w) }, .ok ()) := by
  simp [TMemory.Write, h]

theorem Write_fault (m : TMemory) (a w : Nat) (h : m.writable (toU32 a) = false) :
    m.Write a w = ({ m with log := m.log ++ [⟨true, toU32 a⟩] }, .error ⟨true, toU32 a⟩) := by
  simp [TMemory.Write, h]

/-- The state and result of a `PUSH` whose write the memory subsystem accepts. -/
theorem PUSH_ok (sp : LValue) (w : RValue) (s : World)
    (h : s.MEM.writable (sub32 (s.load sp) 4) = true) :
    PUSH sp w s =
      ({ s.assign sp (sub32 (s.load sp) 4) with
          MEM := { s.MEM with
            log := s.MEM.log ++ [⟨true, sub32 (s.load sp) 4⟩],
            bytes := storeWord s.MEM.bigEndian s.MEM.bytes (sub32 (s.load sp) 4)
              (toU32 ((s.assign sp (sub32 (s.load sp) 4)).eval w)) } }, .ok ()) := by
  unfold PUSH
  simp only [load_assign_same, MEM_assign, toU32_sub32]
  rw [Write_ok _ _ _ (by rw [toU32_sub32]; exact h)]
  simp only [toU32_sub32]

/-- The state and result of a `PUSH` whose write the memory subsystem rejects. -/
theorem PUSH_fault (sp : LValue) (w : RValue) (s : World)
    (h : s.MEM.writable (sub32 (s.load sp) 4) = false) :
    PUSH sp w s =
      ({ s.assign sp (sub32 (s.load sp) 4) with
          MEM := { s.MEM with log := s.MEM.log ++ [⟨true, sub32 (s.load sp) 4⟩] } },
        .error ⟨true, sub32 (s.load sp) 4⟩) := by
  unfold PUSH
  simp only [load_assign_same, MEM_assign, toU32_sub32]
  rw [Write_fault _ _ _ (by rw [toU32_sub32]; exact h)]
  simp only [toU32_sub32]

/-- The state and result of a `POP` whose read the memory subsystem accepts. -/
theorem POP_ok (sp w : LValue) (s : World) (h : s.MEM.readable (toU32 (s.load sp)) = true) :
    POP sp w s =
      ((World.assign { s with MEM := { s.MEM with log := s.MEM.log ++ [⟨false, toU32 (s.load sp)⟩] } }
          w (s.MEM.word (toU32 (s.load sp)))).assign sp
        (add32 ((World.assign { s with MEM := { s.MEM with log := s.MEM.log ++ [⟨false, toU32 (s.load sp)⟩] } }
          w (s.MEM.word (toU32 (s.load sp)))).load sp) 4), .ok ()) := by
  unfold POP
  rw [Read_ok _ _ h]

/-- The state and result of a `POP` whose read the memory subsystem rejects. -/
theorem POP_fault (sp w : LValue) (s : World) (h : s.MEM.readable (toU32 (s.load sp)) = false) :
    POP sp w s =
      ({ s with MEM := { s.MEM with log := s.MEM.log ++ [⟨false, toU32 (s.load sp)⟩] } },
        .error ⟨false, toU32 (s.load sp)⟩) := by
  unfold POP
  rw [Read_fault _ _ h]

/-- The state and result of an `RPOP` whose read the memory subsystem accepts. -/
theorem RPOP_ok (sp w : LValue) (s : World)
    (h : s.MEM.readable (sub32 (s.load sp) 4) = true) :
    RPOP sp w s =
      (World.assign { s.assign sp (sub32 (s.load sp) 4) with
          MEM := { s.MEM with log := s.MEM.log ++ [⟨false, sub32 (s.load sp) 4⟩] } }
        w (s.MEM.word (sub32 (s.load sp) 4)), .ok ()) := by
  unfold RPOP
  simp only [load_assign_same, MEM_assign, toU32_sub32]
  rw [Read_ok _ _ (by rw [toU32_sub32]; exact h)]
  simp only [toU32_sub32]

/-- The state and result of an `RPOP` whose read the memory subsystem rejects. -/
theorem RPOP_fault (sp w : LValue) (s : World)
    (h : s.MEM.readable (sub32 (s.load sp) 4) = false) :
    RPOP sp w s =
      ({ s.assign sp (sub32 (s.load sp) 4) with
          MEM := { s.MEM with log := s.MEM.log ++ [⟨false, sub32 (s.load sp) 4⟩] } },
        .error ⟨false, sub32 (s.load sp) 4⟩) := by
  unfold RPOP
  simp only [load_assign_same, MEM_assign, toU32_sub32]
  rw [Read_fault _ _ (by rw [toU32_sub32]; exact h)]
  simp only [toU32_sub32]

theorem getResult_Read_ok {β : Type} (s : World) (f : Nat → β) (a : Nat)
    (h : s.MEM.readable (toU32 a) = true) :
    getResult s f (s.MEM.Read a) =
      ({ s with MEM := { s.MEM with log := s.MEM.log ++ [⟨false, toU32 a⟩] } },
        .ok (f (s.MEM.word (toU32 a)))) := by
  unfold getResult
  rw [Read_ok _ _ h]

theorem getResult_Read_fault {β : Type} (s : World) (f : Nat → β) (a : Nat)
    (h : s.MEM.readable (toU32 a) = false) :
    getResult s f (s.MEM.Read a) =
      ({ s with MEM := { s.MEM with log := s.MEM.log ++ [⟨false, toU32 a⟩] } },
        .error ⟨false, toU32 a⟩) := by
  unfold getResult
  rw [Read_fault _ _ h]

theorem toU32_memberAddr (ptrBits this offset : Nat) :
    toU32 (memberAddr ptrBits this offset) = memberAddr ptrBits this offset :=
  toU32_add32 _ _

/-- A write followed by a read of the same accepted address delivers the
written word, whatever conversion the getter applies to it. -/
theorem read_after_write {β : Type} (s : World) (f : Nat → β) (a w : Nat)
    (hw : s.MEM.writable (toU32 a) = true) (hr : s.MEM.readable (toU32 a) = true) :
    (s.MEM.Write a w).2 = .ok ()
      ∧ (getResult { s with MEM := (s.MEM.Write a w).1 } f
          ((s.MEM.Write a w).1.Read a)).2 = .ok (f (toU32 w)) := by
  rw [Write_ok _ _ _ hw]
  refine ⟨rfl, ?_⟩
  have h := getResult_Read_ok
    { s with MEM := { s.MEM with log := s.MEM.log ++ [⟨true, toU32 a⟩],
                                 bytes := storeWord s.MEM.bigEndian s.MEM.bytes (toU32 a) (toU32 w) } }
    f a hr
  simp only [] at h ⊢
  rw [h]
  simp only [TMemory.word, wordAt_storeWord_same, toU32_toU32]

/-! ## Control transfer -/

/-- Claim C1: for every operand `addr` (a constant address `A` in particular)
and every state, `EXIT(addr)` leaves register 15 holding `addr + 4` in 32-bit
unsigned arithmetic, so that `EXIT(0)` gives 4 and `EXIT(0xFFFFFFFF)` wraps
to 3, and the patch returns `nullptr`. -/
theorem C1_EXIT_sets_pc (addr : RValue) (A : Nat) (s : World) :
    (EXIT addr s).1.CPU.mCurrentRegisters 15 = (s.eval addr + 4) % 4294967296
      ∧ (EXIT (.lit A) s).1.CPU.mCurrentRegisters 15 = (A + 4) % 4294967296
      ∧ (EXIT (.lit 0) s).1.load PC = 4
      ∧ (EXIT (.lit 4294967295) s).1.load PC = 3
      ∧ (EXIT addr s).2 = none := by
  have key : ∀ a : RValue, (EXIT a s).1.load (.reg 15) = (s.eval a + 4) % 4294967296 := by
    intro a
    show (s.assign (.reg 15) (add32 (s.eval a) 4)).load (.reg 15) = _
    rw [load_assign_same]
    unfold toU32 add32 wordMod
    omega
  have wrap : (s.eval (.lit 4294967295) + 4) % 4294967296 = 3 := by
    show (4294967295 + 4) % 4294967296 = 3
    norm_num
  exact ⟨key addr, key (.lit A), key (.lit 0), (key (.lit 4294967295)).trans wrap, rfl⟩

/-! ## Stack access -/

/-- Claim C2: for every starting stack pointer `S` and word `W`, when the memory
subsystem accepts the write and the read at `S - 4`, `PUSH(sp, W)` followed by
`POP(sp, X)` (with `X` an operand other than `sp`) succeeds twice, leaves `sp`
equal to `S` and `X` equal to `W`. -/
theorem C2_push_pop_roundtrip (sp X : LValue) (W : Nat) (s : World)
    (hX : X ≠ sp) (hS : s.load sp < wordMod) (hW : W < wordMod)
    (hw : s.MEM.writable (sub32 (s.load sp) 4) = true)
    (hr : s.MEM.readable (sub32 (s.load sp) 4) = true) :
    (PUSH sp (.lit W) s).2 = .ok ()
      ∧ (POP sp X (PUSH sp (.lit W) s).1).2 = .ok ()
      ∧ (POP sp X (PUSH sp (.lit W) s).1).1.load sp = s.load sp
      ∧ (POP sp X (PUSH sp (.lit W) s).1).1.load X = W := by
  rw [PUSH_ok sp _ s hw]
  simp only [eval_lit]
  rw [POP_ok _ _ _ (by simp only [load_setMEM, load_assign_same, toU32_sub32]; exact hr)]
  simp only [load_setMEM, load_assign_same, toU32_sub32, load_assign_other _ _ hX,
    load_assign_other _ _ (Ne.symm hX), toU32_add32, add32_sub32_cancel hS, true_and]
  simp only [TMemory.word, wordAt_storeWord_same, toU32_toU32, toU32_of_lt hW,
    toU32_of_lt hS, and_self]

/-- Witness of `C2_push_pop_roundtrip`: pushing 7 from `SP = 0x1000` and
popping into `R0`. -/
theorem C2_push_pop_roundtrip_witness :
    (POP SP R0 (PUSH SP (.lit 7) (startWorld zeroMem 4096)).1).1.load SP = 4096
      ∧ (POP SP R0 (PUSH SP (.lit 7) (startWorld zeroMem 4096)).1).1.load R0 = 7 :=
  have h := C2_push_pop_roundtrip SP R0 7 (startWorld zeroMem 4096) (by decide) (by decide)
    (by decide) rfl rfl
  ⟨h.2.2.1, h.2.2.2⟩

/-- Claim C3 as stated fails: from `SP = 0x1000`, `PUSH(SP, 7)` followed at
once by `RPOP(SP, R0)` reads address `0xFF8`, not `0xFFC`, so `R0` is the old
word 0 and not 7, and `SP` ends at `0xFF8`, not at `0xFFC`. -/
theorem C3_counterexample :
    (RPOP SP R0 (PUSH SP (.lit 7) (startWorld zeroMem 4096)).1).2 = .ok ()
      ∧ (RPOP SP R0 (PUSH SP (.lit 7) (startWorld zeroMem 4096)).1).1.load R0 = 0
      ∧ (RPOP SP R0 (PUSH SP (.lit 7) (startWorld zeroMem 4096)).1).1.load R0 ≠ 7
      ∧ (RPOP SP R0 (PUSH SP (.lit 7) (startWorld zeroMem 4096)).1).1.load SP = 4088
      ∧ (RPOP SP R0 (PUSH SP (.lit 7) (startWorld zeroMem 4096)).1).1.load SP ≠ 4092
      ∧ (RPOP SP R0 (PUSH SP (.lit 7) (startWorld zeroMem 4096)).1).1.MEM.log
          = [⟨true, 4092⟩, ⟨false, 4088⟩] := by
  refine ⟨rfl, ?_, ?_, ?_, ?_, ?_⟩ <;> decide

/-- Claim C3, amended: `RPOP` decrements again before it reads.  When the
write at `S - 4` is accepted, `PUSH(sp, W)` followed at once by `RPOP(sp, X)`
reads address `S - 8`: given that read is accepted, `X` is the word that was
at `S - 8` before the push and `sp` ends at `S - 8`.  With `sp += 4` between
the two, and the read at `S - 4` accepted, `RPOP` reads address `S - 4`,
yields `X = W` and leaves `sp` at `S - 4`. -/
theorem C3_push_rpop (sp X : LValue) (W : Nat) (s : World)
    (hX : X ≠ sp) (hS : s.load sp < wordMod) (hW : W < wordMod)
    (hw : s.MEM.writable (sub32 (s.load sp) 4) = true) :
    (PUSH sp (.lit W) s).2 = .ok ()
      ∧ (s.MEM.readable (sub32 (s.load sp) 8) = true →
          (RPOP sp X (PUSH sp (.lit W) s).1).2 = .ok ()
          ∧ (RPOP sp X (PUSH sp (.lit W) s).1).1.load X = s.MEM.word (sub32 (s.load sp) 8)
          ∧ (RPOP sp X (PUSH sp (.lit W) s).1).1.load sp = sub32 (s.load sp) 8
          ∧ (RPOP sp X (PUSH sp (.lit W) s).1).1.MEM.log
              = s.MEM.log ++ [⟨true, sub32 (s.load sp) 4⟩, ⟨false, sub32 (s.load sp) 8⟩])
      ∧ (s.MEM.readable (sub32 (s.load sp) 4) = true →
          (RPOP sp X ((PUSH sp (.lit W) s).1.assign sp
              (add32 ((PUSH sp (.lit W) s).1.load sp) 4))).2 = .ok ()
          ∧ (RPOP sp X ((PUSH sp (.lit W) s).1.assign sp
              (add32 ((PUSH sp (.lit W) s).1.load sp) 4))).1.load X = W
          ∧ (RPOP sp X ((PUSH sp (.lit W) s).1.assign sp
              (add32 ((PUSH sp (.lit W) s).1.load sp) 4))).1.load sp = sub32 (s.load sp) 4
          ∧ (RPOP sp X ((PUSH sp (.lit W) s).1.assign sp
              (add32 ((PUSH sp (.lit W) s).1.load sp) 4))).1.MEM.log
              = s.MEM.log ++ [⟨true, sub32 (s.load sp) 4⟩, ⟨false, sub32 (s.load sp) 4⟩]) := by
  rw [PUSH_ok sp _ s hw]
  simp only [eval_lit, load_setMEM, load_assign_same, toU32_sub32, add32_sub32_cancel hS]
  refine ⟨trivial, fun hr => ?_, fun hr => ?_⟩
  · rw [RPOP_ok _ _ _ (by
      simp only [load_setMEM, load_assign_same, toU32_sub32, sub32_sub32]; exact hr)]
    simp only [load_setMEM, load_assign_same, toU32_sub32, sub32_sub32, MEM_assign,
      load_assign_other _ _ hX, load_assign_other _ _ (Ne.symm hX), TMemory.word,
      wordAt_storeWord_apart _ _ _ (wordsApart_sub32 _), toU32_of_lt (wordAt_lt _ _ _),
      List.append_assoc, List.singleton_append, and_self]
  · rw [RPOP_ok _ _ _ (by
      simp only [load_setMEM, load_assign_same, MEM_assign, toU32_of_lt hS]; exact hr)]
    simp only [load_setMEM, load_assign_same, toU32_sub32, MEM_assign, toU32_of_lt hS,
      load_assign_other _ _ hX, load_assign_other _ _ (Ne.symm hX), TMemory.word,
      wordAt_storeWord_same, toU32_toU32, toU32_of_lt hW,
      List.append_assoc, List.singleton_append, and_self]

/-- Witness of `C3_push_rpop`: from `SP = 0x1000` with 7 pushed, the direct
reverse pop yields the old word 0 and leaves `SP = 0xFF8`; after `SP += 4`
it yields 7 and leaves `SP = 0xFFC`. -/
theorem C3_push_rpop_witness :
    (RPOP SP R0 (PUSH SP (.lit 7) (startWorld zeroMem 4096)).1).1.load SP = 4088
      ∧ (RPOP SP R0 ((PUSH SP (.lit 7) (startWorld zeroMem 4096)).1.assign SP
          (add32 ((PUSH SP (.lit 7) (startWorld zeroMem 4096)).1.load SP) 4))).1.load R0 = 7
      ∧ (RPOP SP R0 ((PUSH SP (.lit 7) (startWorld zeroMem 4096)).1.assign SP
          (add32 ((PUSH SP (.lit 7) (startWorld zeroMem 4096)).1.load SP) 4))).1.load SP
          = 4092 :=
  have h := C3_push_rpop SP R0 7 (startWorld zeroMem 4096) (by decide) (by decide)
    (by decide) rfl
  ⟨(h.2.1 rfl).2.2.1, (h.2.2 rfl).2.1, (h.2.2 rfl).2.2.1⟩

/-- Claim C9 as stated fails twice.  Where the memory subsystem rejects the
write (`SP = 0x2000` with only addresses below `0x1000` mapped) the word at
`S - 4` is not `W` afterwards.  Where it accepts it, words at other addresses
that share bytes with the written one change: with `SP = 0x1000` and
`W = 0xFFFFFFFF` the word at `0xFFD` goes from 0 to `0xFFFFFF00`, and with
`SP = 0x1001` the aligned word at `0x1000` goes from 0 to `0xFF000000`. -/
theorem C9_counterexample :
    ((PUSH SP (.lit 7) (startWorld (guardedMem 170 4096) 8192)).2 = .error ⟨true, 8188⟩
        ∧ (PUSH SP (.lit 7) (startWorld (guardedMem 170 4096) 8192)).1.MEM.word 8188 ≠ 7)
      ∧ ((PUSH SP (.lit 4294967295) (startWorld zeroMem 4096)).2 = .ok ()
        ∧ (startWorld zeroMem 4096).MEM.word 4093 = 0
        ∧ (PUSH SP (.lit 4294967295) (startWorld zeroMem 4096)).1.MEM.word 4093
            = 4294967040)
      ∧ ((PUSH SP (.lit 4294967295) (startWorld zeroMem 4097)).2 = .ok ()
        ∧ (startWorld zeroMem 4097).MEM.word 4096 = 0
        ∧ (PUSH SP (.lit 4294967295) (startWorld zeroMem 4097)).1.MEM.word 4096
            = 4278190080) := by
  refine ⟨⟨rfl, ?_⟩, ⟨rfl, ?_, ?_⟩, rfl, ?_, ?_⟩ <;> decide

/-- Claim C9, amended: for every stack pointer `S` and word `W`, `PUSH(sp, W)`
first sets `sp` to `S - 4` (32-bit wrapping, `S = 0` giving `0xFFFFFFFC`) and
then makes exactly one write call, at that new address.  When the memory
subsystem accepts the write, the word at `S - 4` is `W` afterwards, every
byte outside the four bytes of that word is unchanged, and so is every word
whose four bytes do not meet them. -/
theorem C9_push (sp : LValue) (W : Nat) (s : World) (hW : W < wordMod) :
    (PUSH sp (.lit W) s).1.load sp = sub32 (s.load sp) 4
      ∧ sub32 0 4 = 4294967292
      ∧ (PUSH sp (.lit W) s).1.MEM.log = s.MEM.log ++ [⟨true, sub32 (s.load sp) 4⟩]
      ∧ (s.MEM.writable (sub32 (s.load sp) 4) = true →
          (PUSH sp (.lit W) s).2 = .ok ()
          ∧ (PUSH sp (.lit W) s).1.MEM.word (sub32 (s.load sp) 4) = W
          ∧ (∀ x, (∀ i, i < 4 → x ≠ byteAddr s.MEM.bigEndian (sub32 (s.load sp) 4) i) →
              (PUSH sp (.lit W) s).1.MEM.bytes x = s.MEM.bytes x)
          ∧ (∀ c, WordsApart (sub32 (s.load sp) 4) c →
              (PUSH sp (.lit W) s).1.MEM.word c = s.MEM.word c)) := by
  have h0 : sub32 0 4 = 4294967292 := by unfold sub32 wordMod; norm_num
  cases hw : s.MEM.writable (sub32 (s.load sp) 4)
  · rw [PUSH_fault sp _ s hw]
    simp only [load_setMEM, load_assign_same, toU32_sub32, h0, false_implies, and_self,
      Bool.false_eq_true]
  · rw [PUSH_ok sp _ s hw]
    simp only [load_setMEM, load_assign_same, toU32_sub32, h0, eval_lit, true_and,
      forall_const, TMemory.word, wordAt_storeWord_same, toU32_toU32, toU32_of_lt hW]
    exact ⟨fun x hx => storeWord_other _ _ _ _ _ hx,
      fun c hc => wordAt_storeWord_apart _ _ _ hc⟩

/-- Witness of `C9_push`: pushing 7 from `SP = 0x1000` into a memory that
accepts every address. -/
theorem C9_push_witness :
    (PUSH SP (.lit 7) (startWorld zeroMem 4096)).1.load SP = 4092
      ∧ (PUSH SP (.lit 7) (startWorld zeroMem 4096)).1.MEM.word 4092 = 7
      ∧ (PUSH SP (.lit 7) (startWorld zeroMem 4096)).1.MEM.word 8192
          = (startWorld zeroMem 4096).MEM.word 8192 :=
  have h := C9_push SP 7 (startWorld zeroMem 4096) (by decide)
  ⟨h.1, (h.2.2.2 rfl).2.1, (h.2.2.2 rfl).2.2.2 8192 (by decide)⟩

/-- Claim C10 as stated fails where the memory subsystem rejects the read:
with `SP = 0x2000` and only addresses below `0x1000` mapped, `POP(SP, R0)`
raises the fault, `R0` keeps its old content 0 instead of the word
`0xAAAAAAAA` at `0x2000`, and `SP` stays at `0x2000`. -/
theorem C10_counterexample :
    (POP SP R0 (startWorld (guardedMem 170 4096) 8192)).2 = .error ⟨false, 8192⟩
      ∧ (startWorld (guardedMem 170 4096) 8192).MEM.word 8192 = 2863311530
      ∧ (POP SP R0 (startWorld (guardedMem 170 4096) 8192)).1.load R0 = 0
      ∧ (POP SP R0 (startWorld (guardedMem 170 4096) 8192)).1.load SP = 8192 := by
  refine ⟨rfl, ?_, ?_, ?_⟩ <;> decide

/-- Claim C10, amended: for every stack pointer `S` and memory state,
`POP(sp, X)` makes exactly one read call, at address `S`, and never changes a
byte of memory.  When the memory subsystem accepts the read, `X` (an operand
other than `sp`) receives the word at `S` and `sp` is then set to `S + 4`
(32-bit wrapping, `S = 0xFFFFFFFC` giving 0). -/
theorem C10_pop (sp X : LValue) (s : World) (hX : X ≠ sp) (hS : s.load sp < wordMod) :
    (POP sp X s).1.MEM.bytes = s.MEM.bytes
      ∧ (POP sp X s).1.MEM.log = s.MEM.log ++ [⟨false, s.load sp⟩]
      ∧ add32 4294967292 4 = 0
      ∧ (s.MEM.readable (s.load sp) = true →
          (POP sp X s).2 = .ok ()
          ∧ (POP sp X s).1.load X = s.MEM.word (s.load sp)
          ∧ (POP sp X s).1.load sp = add32 (s.load sp) 4) := by
  have h0 : add32 4294967292 4 = 0 := by unfold add32 wordMod; norm_num
  have hT := toU32_of_lt hS
  cases hr : s.MEM.readable (s.load sp)
  · rw [POP_fault sp _ s (by rw [hT]; exact hr)]
    simp only [hT, h0, false_implies, and_self, Bool.false_eq_true]
  · rw [POP_ok sp _ s (by rw [hT]; exact hr)]
    simp only [hT, h0, MEM_assign, load_setMEM, load_assign_same, toU32_add32,
      load_assign_other _ _ hX, load_assign_other _ _ (Ne.symm hX), TMemory.word,
      toU32_of_lt (wordAt_lt _ _ _), forall_const, and_self]

/-- Witness of `C10_pop`: popping into `R0` from `SP = 0x1000` in a memory
whose bytes are all `0xAA`. -/
theorem C10_pop_witness :
    (POP SP R0 (startWorld (guardedMem 170 8192) 4096)).1.load R0 = 2863311530
      ∧ (POP SP R0 (startWorld (guardedMem 170 8192) 4096)).1.load SP = 4100 :=
  have h := C10_pop SP R0 (startWorld (guardedMem 170 8192) 4096) (by decide) (by decide)
  ⟨(h.2.2.2 rfl).2.1, (h.2.2.2 rfl).2.2⟩

/-! ## Typed accessors -/

/-- Claim C5: for a global declared with `GLOBAL_GETSET_W` at address `G` with
an integer type `T` of at most 32 bits, signed or unsigned, and every value
`v` of `T`, `SetG(v)` followed by `GetG()` returns `v`, provided the memory
subsystem accepts the write and the read at `G`. -/
theorem C5_global_roundtrip (G : Nat) (T : IntType) (v : Int) (s : World)
    (hb0 : 0 < T.bits) (hb : T.bits ≤ 32) (hv : T.holds v)
    (hw : s.MEM.writable (GLOBAL_GETSET_W.g G) = true)
    (hr : s.MEM.readable (GLOBAL_GETSET_W.g G) = true) :
    (GLOBAL_GETSET_W.SetG G v s).2 = .ok ()
      ∧ (GLOBAL_GETSET_W.GetG G T (GLOBAL_GETSET_W.SetG G v s).1).2 = .ok v := by
  have hg : toU32 (GLOBAL_GETSET_W.g G) = GLOBAL_GETSET_W.g G := toU32_toU32 G
  unfold GLOBAL_GETSET_W.SetG GLOBAL_GETSET_W.GetG getResult
  simp only []
  rw [Write_ok _ _ _ (by rw [hg]; exact hw)]
  simp only [true_and]
  rw [Read_ok _ _ (by rw [hg]; exact hr)]
  simp only [hg, TMemory.word, wordAt_storeWord_same, toU32_toU32]
  rw [toU32_of_lt (toWord_lt v)]
  rw [IntType.ofWord_toWord T v hb0 hb hv]

/-- Witness of `C5_global_roundtrip`: the value -5 of a signed 16-bit type
through a global at `0x1000`. -/
theorem C5_global_roundtrip_witness :
    (GLOBAL_GETSET_W.GetG 4096 ⟨16, true⟩
        (GLOBAL_GETSET_W.SetG 4096 (-5) (startWorld zeroMem 0)).1).2 = .ok (-5) :=
  (C5_global_roundtrip 4096 ⟨16, true⟩ (-5) (startWorld zeroMem 0) (by decide) (by decide)
    (by decide) rfl rfl).2

/-- Claim C6: for an accessor declared with the pointer-width policy
(`GLOBAL_GETSET_P` at address `G`, or `T_GETSET_MEMBER_P` at offset `O` of the
handle `this`) and every host-pointer-sized value `p` whose address-sized
integer representation is below `2^32`, `Set(p)` followed by `Get()` returns
`p`, provided the memory subsystem accepts the write and the read. -/
theorem C6_pointer_roundtrip (ptrBits G O this p : Nat) (s : World)
    (hp : p < wordMod) (hpb : p < 2 ^ ptrBits) :
    (s.MEM.writable (GLOBAL_GETSET_P.g G) = true → s.MEM.readable (GLOBAL_GETSET_P.g G) = true →
        (GLOBAL_GETSET_P.SetG ptrBits G p s).2 = .ok ()
        ∧ (GLOBAL_GETSET_P.GetG ptrBits G (GLOBAL_GETSET_P.SetG ptrBits G p s).1).2 = .ok p)
      ∧ (s.MEM.writable (memberAddr ptrBits this O) = true →
          s.MEM.readable (memberAddr ptrBits this O) = true →
        (T_GETSET_MEMBER_P.Set ptrBits O this p s).2 = .ok ()
        ∧ (T_GETSET_MEMBER_P.Get ptrBits O this
            (T_GETSET_MEMBER_P.Set ptrBits O this p s).1).2 = .ok p) := by
  have hg : toU32 (GLOBAL_GETSET_P.g G) = GLOBAL_GETSET_P.g G := toU32_toU32 G
  have hm := toU32_memberAddr ptrBits this O
  have hword : toU32 (wordOfPtr ptrBits p) = wordOfPtr ptrBits p := toU32_toU32 _
  constructor
  · intro hw hr
    have h := read_after_write s (ptrOfWord ptrBits) (GLOBAL_GETSET_P.g G) (wordOfPtr ptrBits p)
      (by rw [hg]; exact hw) (by rw [hg]; exact hr)
    rw [hword, ptrOfWord_wordOfPtr _ _ hp hpb] at h
    exact h
  · intro hw hr
    have h := read_after_write s (ptrOfWord ptrBits) (memberAddr ptrBits this O)
      (wordOfPtr ptrBits p) (by rw [hm]; exact hw) (by rw [hm]; exact hr)
    rw [hword, ptrOfWord_wordOfPtr _ _ hp hpb] at h
    exact h

/-- Witness of `C6_pointer_roundtrip`: the pointer value `0x12345678` on a
64-bit host, through a global at `0x1000` and through offset 8 of a handle
whose guest base address is `0x2000`. -/
theorem C6_pointer_roundtrip_witness :
    (GLOBAL_GETSET_P.GetG 64 4096
        (GLOBAL_GETSET_P.SetG 64 4096 305419896 (startWorld zeroMem 0)).1).2 = .ok 305419896
      ∧ (T_GETSET_MEMBER_P.Get 64 8 8192
          (T_GETSET_MEMBER_P.Set 64 8 8192 305419896 (startWorld zeroMem 0)).1).2
          = .ok 305419896 :=
  have h := C6_pointer_roundtrip 64 4096 8 8192 305419896 (startWorld zeroMem 0)
    (by decide) (by decide)
  ⟨(h.1 rfl rfl).2, (h.2 rfl rfl).2⟩

/-- Claim C7 as stated fails: the handles with base addresses `0x1000` and
`0x1001` are different, yet their fields at offset 8 share three bytes.
After `Set(0)` on the first and `Set(0xFFFFFFFF)` on the second, `Get()` on
the first returns `0x00FFFFFF` in a big-endian memory and `0xFFFFFF00` in a
little-endian one, not 0. -/
theorem C7_counterexample :
    (T_GETSET_MEMBER_W.Get 64 8 ⟨32, false⟩ 4096
        (T_GETSET_MEMBER_W.Set 64 8 4097 4294967295
          (T_GETSET_MEMBER_W.Set 64 8 4096 0 (startWorld zeroMem 0)).1).1).2 = .ok 16777215
      ∧ (T_GETSET_MEMBER_W.Get 64 8 ⟨32, false⟩ 4096
        (T_GETSET_MEMBER_W.Set 64 8 4097 4294967295
          (T_GETSET_MEMBER_W.Set 64 8 4096 0
            (startWorld { zeroMem with bigEndian := false } 0)).1).1).2 = .ok 4294967040 := by
  constructor <;> rfl

/-- Claim C7, amended: for two handles whose fields at offset `O` do not
overlap (the two field addresses lie at least four bytes apart modulo
`2^32`), every value `v1` of an integer type of at most 32 bits and every
`v2`: when the memory subsystem accepts the write and the read of the first
field, then after `Set(v1)` on the first handle and `Set(v2)` on the second,
accepted or not, `Get()` on the first handle still returns `v1`. -/
theorem C7_member_independence (ptrBits O this1 this2 : Nat) (T : IntType) (v1 v2 : Int)
    (s : World) (hb0 : 0 < T.bits) (hb : T.bits ≤ 32) (hv : T.holds v1)
    (hapart : WordsApart (memberAddr ptrBits this2 O) (memberAddr ptrBits this1 O))
    (hw : s.MEM.writable (memberAddr ptrBits this1 O) = true)
    (hr : s.MEM.readable (memberAddr ptrBits this1 O) = true) :
    (T_GETSET_MEMBER_W.Set ptrBits O this1 v1 s).2 = .ok ()
      ∧ (T_GETSET_MEMBER_W.Get ptrBits O T this1
          (T_GETSET_MEMBER_W.Set ptrBits O this2 v2
            (T_GETSET_MEMBER_W.Set ptrBits O this1 v1 s).1).1).2 = .ok v1 := by
  have h1 := toU32_memberAddr ptrBits this1 O
  have h2 := toU32_memberAddr ptrBits this2 O
  unfold T_GETSET_MEMBER_W.Set T_GETSET_MEMBER_W.Get
  simp only []
  rw [Write_ok _ _ _ (by rw [h1]; exact hw)]
  refine ⟨rfl, ?_⟩
  simp only [h1]
  cases hw2 : s.MEM.writable (memberAddr ptrBits this2 O)
  · rw [Write_fault _ _ _ (by rw [h2]; exact hw2)]
    rw [getResult_Read_ok _ _ _ (by rw [h1]; exact hr)]
    simp only [h1, TMemory.word, wordAt_storeWord_same, toU32_toU32, toU32_of_lt (toWord_lt v1),
      IntType.ofWord_toWord T v1 hb0 hb hv]
  · rw [Write_ok _ _ _ (by rw [h2]; exact hw2)]
    rw [getResult_Read_ok _ _ _ (by rw [h1]; exact hr)]
    simp only [h1, h2, TMemory.word, wordAt_storeWord_apart _ _ _ hapart, wordAt_storeWord_same,
      toU32_toU32, toU32_of_lt (toWord_lt v1), IntType.ofWord_toWord T v1 hb0 hb hv]

/-- Witness of `C7_member_independence`: handles with base addresses `0x1000`
and `0x1004`, offset 8, an unsigned 32-bit field. -/
theorem C7_member_independence_witness :
    (T_GETSET_MEMBER_W.Get 64 8 ⟨32, false⟩ 4096
        (T_GETSET_MEMBER_W.Set 64 8 4100 4294967295
          (T_GETSET_MEMBER_W.Set 64 8 4096 0 (startWorld zeroMem 0)).1).1).2 = .ok 0 :=
  (C7_member_independence 64 8 4096 4100 ⟨32, false⟩ 0 4294967295 (startWorld zeroMem 0)
    (by decide) (by decide) (by decide) (by decide) rfl rfl).2

/-! ## Fault propagation -/

/-- Claim C4 as stated fails for `PUSH` and `RPOP`: with `SP = 0x2000` and
only addresses below `0x1000` mapped, the rejected `PUSH(SP, 7)` and the
rejected `RPOP(SP, R0)` both return the fault and leave `SP` at `0x1FFC`, not
at `0x2000`. -/
theorem C4_counterexample :
    (PUSH SP (.lit 7) (startWorld (guardedMem 170 4096) 8192)).2 = .error ⟨true, 8188⟩
      ∧ (PUSH SP (.lit 7) (startWorld (guardedMem 170 4096) 8192)).1.load SP = 8188
      ∧ (RPOP SP R0 (startWorld (guardedMem 170 4096) 8192)).2 = .error ⟨false, 8188⟩
      ∧ (RPOP SP R0 (startWorld (guardedMem 170 4096) 8192)).1.load SP = 8188
      ∧ (startWorld (guardedMem 170 4096) 8192).load SP = 8192 := by
  refine ⟨rfl, ?_, rfl, ?_, ?_⟩ <;> decide

/-- Claim C4, amended: when the memory subsystem rejects the address, each
operation of this layer returns the fault to its caller, makes the memory
call exactly once and changes no byte of memory.  `PEEK_W`, `POKE_W`, `POP`
and the generated getters and setters leave every register unchanged; `PUSH`
and `RPOP`, which decrement before the call, leave their stack-pointer
operand at `S - 4` and every other register unchanged. -/
theorem C4_fault_propagation (s : World) (ptrBits : Nat) :
    (∀ a, s.MEM.readable (toU32 a) = false →
        FaultsOnce s (PEEK_W a s) ⟨false, toU32 a⟩ ∧ SameRegisters s (PEEK_W a s).1)
      ∧ (∀ a w, s.MEM.writable (toU32 (s.eval a)) = false →
        FaultsOnce s (POKE_W a w s) ⟨true, toU32 (s.eval a)⟩
          ∧ SameRegisters s (POKE_W a w s).1)
      ∧ (∀ sp X, s.MEM.readable (toU32 (s.load sp)) = false →
        FaultsOnce s (POP sp X s) ⟨false, toU32 (s.load sp)⟩ ∧ SameRegisters s (POP sp X s).1)
      ∧ (∀ sp w, s.MEM.writable (sub32 (s.load sp) 4) = false →
        FaultsOnce s (PUSH sp w s) ⟨true, sub32 (s.load sp) 4⟩
          ∧ OnlyMoved sp (sub32 (s.load sp) 4) s (PUSH sp w s).1)
      ∧ (∀ sp X, s.MEM.readable (sub32 (s.load sp) 4) = false →
        FaultsOnce s (RPOP sp X s) ⟨false, sub32 (s.load sp) 4⟩
          ∧ OnlyMoved sp (sub32 (s.load sp) 4) s (RPOP sp X s).1)
      ∧ (∀ G T, s.MEM.readable (GLOBAL_GETSET_W.g G) = false →
        FaultsOnce s (GLOBAL_GETSET_W.GetG G T s) ⟨false, GLOBAL_GETSET_W.g G⟩
          ∧ SameRegisters s (GLOBAL_GETSET_W.GetG G T s).1)
      ∧ (∀ G v, s.MEM.writable (GLOBAL_GETSET_W.g G) = false →
        FaultsOnce s (GLOBAL_GETSET_W.SetG G v s) ⟨true, GLOBAL_GETSET_W.g G⟩
          ∧ SameRegisters s (GLOBAL_GETSET_W.SetG G v s).1)
      ∧ (∀ G, s.MEM.readable (GLOBAL_GETSET_P.g G) = false →
        FaultsOnce s (GLOBAL_GETSET_P.GetG ptrBits G s) ⟨false, GLOBAL_GETSET_P.g G⟩
          ∧ SameRegisters s (GLOBAL_GETSET_P.GetG ptrBits G s).1)
      ∧ (∀ G p, s.MEM.writable (GLOBAL_GETSET_P.g G) = false →
        FaultsOnce s (GLOBAL_GETSET_P.SetG ptrBits G p s) ⟨true, GLOBAL_GETSET_P.g G⟩
          ∧ SameRegisters s (GLOBAL_GETSET_P.SetG ptrBits G p s).1)
      ∧ (∀ O T this, s.MEM.readable (memberAddr ptrBits this O) = false →
        FaultsOnce s (T_GETSET_MEMBER_W.Get ptrBits O T this s) ⟨false, memberAddr ptrBits this O⟩
          ∧ SameRegisters s (T_GETSET_MEMBER_W.Get ptrBits O T this s).1)
      ∧ (∀ O this v, s.MEM.writable (memberAddr ptrBits this O) = false →
        FaultsOnce s (T_GETSET_MEMBER_W.Set ptrBits O this v s) ⟨true, memberAddr ptrBits this O⟩
          ∧ SameRegisters s (T_GETSET_MEMBER_W.Set ptrBits O this v s).1)
      ∧ (∀ O this, s.MEM.readable (memberAddr ptrBits this O) = false →
        FaultsOnce s (T_GETSET_MEMBER_P.Get ptrBits O this s) ⟨false, memberAddr ptrBits this O⟩
          ∧ SameRegisters s (T_GETSET_MEMBER_P.Get ptrBits O this s).1)
      ∧ (∀ O this p, s.MEM.writable (memberAddr ptrBits this O) = false →
        FaultsOnce s (T_GETSET_MEMBER_P.Set ptrBits O this p s) ⟨true, memberAddr ptrBits this O⟩
          ∧ SameRegisters s (T_GETSET_MEMBER_P.Set ptrBits O this p s).1) := by
  have hgw : ∀ G, toU32 (GLOBAL_GETSET_W.g G) = GLOBAL_GETSET_W.g G := fun G => toU32_toU32 G
  have hgp : ∀ G, toU32 (GLOBAL_GETSET_P.g G) = GLOBAL_GETSET_P.g G := fun G => toU32_toU32 G
  have hm := toU32_memberAddr ptrBits
  refine ⟨?_, ?_, ?_, ?_, ?_, ?_, ?_, ?_, ?_, ?_, ?_, ?_, ?_⟩
  · intro a h
    unfold PEEK_W
    rw [Read_fault _ _ (by rw [toU32_toU32]; exact h)]
    simp [FaultsOnce, SameRegisters, toU32_toU32]
  · intro a w h
    unfold POKE_W
    rw [Write_fault _ _ _ h]
    simp [FaultsOnce, SameRegisters]
  · intro sp X h
    rw [POP_fault _ _ _ h]
    simp [FaultsOnce, SameRegisters]
  · intro sp w h
    rw [PUSH_fault _ _ _ h]
    refine ⟨by simp [FaultsOnce], by simp [toU32_sub32], fun l hl => ?_⟩
    simp [load_assign_other _ _ hl]
  · intro sp X h
    rw [RPOP_fault _ _ _ h]
    refine ⟨by simp [FaultsOnce], by simp [toU32_sub32], fun l hl => ?_⟩
    simp [load_assign_other _ _ hl]
  · intro G T h
    unfold GLOBAL_GETSET_W.GetG
    rw [getResult_Read_fault _ _ _ (by rw [hgw]; exact h)]
    simp [FaultsOnce, SameRegisters, hgw]
  · intro G v h
    unfold GLOBAL_GETSET_W.SetG
    simp only []
    rw [Write_fault _ _ _ (by rw [hgw]; exact h)]
    simp [FaultsOnce, SameRegisters, hgw]
  · intro G h
    unfold GLOBAL_GETSET_P.GetG
    rw [getResult_Read_fault _ _ _ (by rw [hgp]; exact h)]
    simp [FaultsOnce, SameRegisters, hgp]
  · intro G p h
    unfold GLOBAL_GETSET_P.SetG
    simp only []
    rw [Write_fault _ _ _ (by rw [hgp]; exact h)]
    simp [FaultsOnce, SameRegisters, hgp]
  · intro O T this h
    unfold T_GETSET_MEMBER_W.Get
    rw [getResult_Read_fault _ _ _ (by rw [hm]; exact h)]
    simp [FaultsOnce, SameRegisters, hm]
  · intro O this v h
    unfold T_GETSET_MEMBER_W.Set
    simp only []
    rw [Write_fault _ _ _ (by rw [hm]; exact h)]
    simp [FaultsOnce, SameRegisters, hm]
  · intro O this h
    unfold T_GETSET_MEMBER_P.Get
    rw [getResult_Read_fault _ _ _ (by rw [hm]; exact h)]
    simp [FaultsOnce, SameRegisters, hm]
  · intro O this p h
    unfold T_GETSET_MEMBER_P.Set
    simp only []
    rw [Write_fault _ _ _ (by rw [hm]; exact h)]
    simp [FaultsOnce, SameRegisters, hm]

/-- Witness of `C4_fault_propagation`: a rejected `PUSH`, a rejected `PEEK_W`
and a rejected getter in a memory that maps only the addresses below
`0x1000`, with `SP = 0x2000`. -/
theorem C4_fault_propagation_witness :
    FaultsOnce (startWorld (guardedMem 170 4096) 8192)
        (PUSH SP (.lit 7) (startWorld (guardedMem 170 4096) 8192)) ⟨true, 8188⟩
      ∧ OnlyMoved SP 8188 (startWorld (guardedMem 170 4096) 8192)
        (PUSH SP (.lit 7) (startWorld (guardedMem 170 4096) 8192)).1
      ∧ FaultsOnce (startWorld (guardedMem 170 4096) 8192)
        (PEEK_W 8192 (startWorld (guardedMem 170 4096) 8192)) ⟨false, 8192⟩
      ∧ SameRegisters (startWorld (guardedMem 170 4096) 8192)
        (GLOBAL_GETSET_W.GetG 8192 ⟨32, false⟩ (startWorld (guardedMem 170 4096) 8192)).1 :=
  have h := C4_fault_propagation (startWorld (guardedMem 170 4096) 8192) 64
  ⟨(h.2.2.2.1 SP (.lit 7) (by decide)).1, (h.2.2.2.1 SP (.lit 7) (by decide)).2,
    (h.1 8192 (by decide)).1, (h.2.2.2.2.2.1 8192 ⟨32, false⟩ (by decide)).2⟩

/-! ## Register access -/

/-- Claim C8: for every state and every word `v`, a write through `SP` is read
back through `R13` and a write through `R13` is read back through `SP`; the
same holds for `LR` with `R14` and for `PC` with `R15`; each such write leaves
the other fifteen registers unchanged. -/
theorem C8_register_aliases (s : World) (v : Nat) (hv : v < wordMod) :
    (s.assign SP v).load R13 = v ∧ (s.assign R13 v).load SP = v
      ∧ (s.assign LR v).load R14 = v ∧ (s.assign R14 v).load LR = v
      ∧ (s.assign PC v).load R15 = v ∧ (s.assign R15 v).load PC = v
      ∧ (∀ j : Fin 16, j ≠ 13 →
          (s.assign SP v).CPU.mCurrentRegisters j = s.CPU.mCurrentRegisters j
          ∧ (s.assign R13 v).CPU.mCurrentRegisters j = s.CPU.mCurrentRegisters j)
      ∧ (∀ j : Fin 16, j ≠ 14 →
          (s.assign LR v).CPU.mCurrentRegisters j = s.CPU.mCurrentRegisters j
          ∧ (s.assign R14 v).CPU.mCurrentRegisters j = s.CPU.mCurrentRegisters j)
      ∧ (∀ j : Fin 16, j ≠ 15 →
          (s.assign PC v).CPU.mCurrentRegisters j = s.CPU.mCurrentRegisters j
          ∧ (s.assign R15 v).CPU.mCurrentRegisters j = s.CPU.mCurrentRegisters j) := by
  have e := toU32_of_lt hv
  refine ⟨?_, ?_, ?_, ?_, ?_, ?_, ?_, ?_, ?_⟩
  · exact (load_assign_same s (.reg 13) v).trans e
  · exact (load_assign_same s (.reg 13) v).trans e
  · exact (load_assign_same s (.reg 14) v).trans e
  · exact (load_assign_same s (.reg 14) v).trans e
  · exact (load_assign_same s (.reg 15) v).trans e
  · exact (load_assign_same s (.reg 15) v).trans e
  · exact fun j hj => ⟨reg_assign_other s 13 j v hj, reg_assign_other s 13 j v hj⟩
  · exact fun j hj => ⟨reg_assign_other s 14 j v hj, reg_assign_other s 14 j v hj⟩
  · exact fun j hj => ⟨reg_assign_other s 15 j v hj, reg_assign_other s 15 j v hj⟩

/-- Witness of `C8_register_aliases`: the word `0xCAFE` written through each
alias of a state whose registers are zero apart from the stack pointer. -/
theorem C8_register_aliases_witness :
    ((startWorld zeroMem 4096).assign SP 51966).load R13 = 51966
      ∧ ((startWorld zeroMem 4096).assign R14 51966).load LR = 51966
      ∧ ((startWorld zeroMem 4096).assign PC 51966).CPU.mCurrentRegisters 13 = 4096 :=
  have h := C8_register_aliases (startWorld zeroMem 4096) 51966 (by decide)
  ⟨h.1, h.2.2.2.1, (h.2.2.2.2.2.2.2.2 13 (by decide)).1⟩

/-- Claim C11 as stated fails where the memory subsystem rejects the read:
with `SP = 0x2000` and only addresses below `0x1000` mapped, `RPOP(SP, R0)`
raises the fault and `R0` keeps its old content 0 instead of the word
`0xAAAAAAAA` at `0x1FFC`. -/
theorem C11_counterexample :
    (RPOP SP R0 (startWorld (guardedMem 170 4096) 8192)).2 = .error ⟨false, 8188⟩
      ∧ (startWorld (guardedMem 170 4096) 8192).MEM.word 8188 = 2863311530
      ∧ (RPOP SP R0 (startWorld (guardedMem 170 4096) 8192)).1.load R0 = 0
      ∧ (RPOP SP R0 (startWorld (guardedMem 170 4096) 8192)).1.load R0
          ≠ (startWorld (guardedMem 170 4096) 8192).MEM.word 8188 := by
  refine ⟨rfl, ?_, ?_, ?_⟩ <;> decide

/-- Claim C11, amended: for every stack pointer `S` and memory state,
`RPOP(sp, X)` first sets `sp` to `S - 4` (32-bit wrapping) and then makes
exactly one read call, at address `S - 4`; afterwards `sp = S - 4` and no
byte of memory has changed.  When the memory subsystem accepts the read, `X`
(an operand other than `sp`) receives the word at `S - 4`. -/
theorem C11_rpop (sp X : LValue) (s : World) (hX : X ≠ sp) :
    (RPOP sp X s).1.load sp = sub32 (s.load sp) 4
      ∧ (RPOP sp X s).1.MEM.bytes = s.MEM.bytes
      ∧ (RPOP sp X s).1.MEM.log = s.MEM.log ++ [⟨false, sub32 (s.load sp) 4⟩]
      ∧ (s.MEM.readable (sub32 (s.load sp) 4) = true →
          (RPOP sp X s).2 = .ok ()
          ∧ (RPOP sp X s).1.load X = s.MEM.word (sub32 (s.load sp) 4)) := by
  cases hr : s.MEM.readable (sub32 (s.load sp) 4)
  · rw [RPOP_fault sp _ s hr]
    simp only [load_setMEM, load_assign_same, toU32_sub32, false_implies, and_self,
      Bool.false_eq_true, MEM_assign]
  · rw [RPOP_ok sp _ s hr]
    simp only [MEM_assign, load_setMEM, load_assign_same, toU32_sub32,
      load_assign_other _ _ hX, load_assign_other _ _ (Ne.symm hX), TMemory.word,
      toU32_of_lt (wordAt_lt _ _ _), forall_const, and_self]

/-- Witness of `C11_rpop`: a reverse pop into `R0` from `SP = 0x1000` in a
memory whose bytes are all `0xAA`. -/
theorem C11_rpop_witness :
    (RPOP SP R0 (startWorld (guardedMem 170 8192) 4096)).1.load SP = 4092
      ∧ (RPOP SP R0 (startWorld (guardedMem 170 8192) 4096)).1.load R0 = 2863311530 :=
  have h := C11_rpop SP R0 (startWorld (guardedMem 170 8192) 4096) (by decide)
  ⟨h.1, (h.2.2.2 rfl).2⟩

/-- Claim C17: `EXIT` changes only the program counter.  For every operand
(a constant address `A` in particular) and every state, after `EXIT`
registers 0 to 14 hold what they held before, the memory subsystem has not
been called and all of guest memory is as before, and so are the variables of
the patch. -/
theorem C17_EXIT_frame (addr : RValue) (A : Nat) (s : World) :
    (∀ j : Fin 16, j ≠ 15 →
        (EXIT addr s).1.CPU.mCurrentRegisters j = s.CPU.mCurrentRegisters j
        ∧ (EXIT (.lit A) s).1.CPU.mCurrentRegisters j = s.CPU.mCurrentRegisters j)
      ∧ (EXIT addr s).1.MEM = s.MEM ∧ (EXIT (.lit A) s).1.MEM = s.MEM
      ∧ (∀ c, (EXIT (.lit A) s).1.MEM.word c = s.MEM.word c)
      ∧ (EXIT addr s).1.vars = s.vars := by
  refine ⟨fun j hj => ⟨?_, ?_⟩, ?_, ?_, fun c => ?_, ?_⟩
  · exact reg_assign_other s 15 j _ hj
  · exact reg_assign_other s 15 j _ hj
  · exact MEM_assign s _ _
  · exact MEM_assign s _ _
  · exact congrArg (fun m => TMemory.word m c) (MEM_assign s _ _)
  · rfl

/-- Storing back the word an address already holds leaves the value of every byte. -/
theorem storeWord_self_mod (be : Bool) (b : Nat → Nat) (a x : Nat) :
    storeWord be b a (toU32 (wordAt be b a)) x % 256 = b x % 256 := by
  rw [toU32_of_lt (wordAt_lt _ _ _)]
  unfold storeWord
  split_ifs with h0 h1 h2 h3
  · subst h0; unfold wordAt; omega
  · subst h1; unfold wordAt; omega
  · subst h2; unfold wordAt; omega
  · subst h3; unfold wordAt; omega
  · rfl

/-- Words only depend on the values of the bytes. -/
theorem wordAt_congr_mod (be : Bool) (b c : Nat → Nat) (a : Nat)
    (h : ∀ x, c x % 256 = b x % 256) : wordAt be c a = wordAt be b a := by
  unfold wordAt
  rw [h, h, h, h]

/-- What an accepted `POP` into an operand other than `sp` leaves behind. -/
theorem POP_ok_state (sp X : LValue) (s : World) (hX : X ≠ sp) (hS : s.load sp < wordMod)
    (hr : s.MEM.readable (s.load sp) = true) :
    (POP sp X s).2 = .ok ()
      ∧ (POP sp X s).1.load sp = add32 (s.load sp) 4
      ∧ (POP sp X s).1.load X = s.MEM.word (s.load sp)
      ∧ (POP sp X s).1.MEM = { s.MEM with log := s.MEM.log ++ [⟨false, s.load sp⟩] } := by
  have hT := toU32_of_lt hS
  rw [POP_ok sp _ s (by rw [hT]; exact hr)]
  simp only [hT, MEM_assign, load_setMEM, load_assign_same, toU32_add32,
    load_assign_other _ _ hX, load_assign_other _ _ (Ne.symm hX), TMemory.word,
    toU32_of_lt (wordAt_lt _ _ _), and_self]

/-- Claim C16: `POP` is undone by `PUSH`.  For every stack pointer `S` and
memory state in which the read at `S` succeeds, `POP(sp, X)` followed by
`PUSH(sp, X)` (with `X` an operand other than `sp`) leaves `sp` equal to `S`
and every memory word equal to its value before the `POP`, whether or not the
memory subsystem accepts the write. -/
theorem C16_pop_push (sp X : LValue) (s : World) (hX : X ≠ sp) (hS : s.load sp < wordMod)
    (hr : s.MEM.readable (s.load sp) = true) :
    (POP sp X s).2 = .ok ()
      ∧ (PUSH sp (.lv X) (POP sp X s).1).1.load sp = s.load sp
      ∧ ∀ c, (PUSH sp (.lv X) (POP sp X s).1).1.MEM.word c = s.MEM.word c := by
  obtain ⟨h1, h2, h3, h4⟩ := POP_ok_state sp X s hX hS hr
  refine ⟨h1, ?_⟩
  generalize POP sp X s = r at h1 h2 h3 h4
  have hsp : sub32 (r.1.load sp) 4 = s.load sp := by rw [h2]; exact sub32_add32_cancel hS
  cases hw : r.1.MEM.writable (sub32 (r.1.load sp) 4)
  · rw [PUSH_fault sp _ _ hw]
    simp only [load_setMEM, load_assign_same, toU32_sub32, hsp, TMemory.word, h4,
      implies_true, toU32_of_lt hS, and_self]
  · rw [PUSH_ok sp _ _ hw]
    simp only [load_setMEM, load_assign_same, toU32_sub32, hsp, TMemory.word, h4,
      eval_lv, load_assign_other _ _ hX, h3, toU32_of_lt hS, true_and]
    intro c
    exact wordAt_congr_mod _ _ _ _ (fun x => storeWord_self_mod _ _ _ x)

/-- Witness of `C16_pop_push`: popping into `R0` and pushing `R0` back at
`SP = 0x1000` in a memory whose bytes are all `0xAA`. -/
theorem C16_pop_push_witness :
    (PUSH SP (.lv R0) (POP SP R0 (startWorld (guardedMem 170 8192) 4096)).1).1.load SP = 4096
      ∧ (PUSH SP (.lv R0) (POP SP R0 (startWorld (guardedMem 170 8192) 4096)).1).1.MEM.word 4096
          = (startWorld (guardedMem 170 8192) 4096).MEM.word 4096 :=
  have h := C16_pop_push SP R0 (startWorld (guardedMem 170 8192) 4096) (by decide) (by decide)
    rfl
  ⟨h.2.1, h.2.2 4096⟩

/-- Claim C18 as stated fails where the memory subsystem rejects the access:
with `SP = 0x2000` and only addresses below `0x1000` mapped, `PUSH(SP, SP)`
stores nothing, the word at `0x1FFC` staying `0xAAAAAAAA` and not `0x1FFC`,
and `POP(SP, SP)` does not leave `SP` at the word at `0x2000` plus 4. -/
theorem C18_counterexample :
    (PUSH SP (.lv SP) (startWorld (guardedMem 170 4096) 8192)).2 = .error ⟨true, 8188⟩
      ∧ (PUSH SP (.lv SP) (startWorld (guardedMem 170 4096) 8192)).1.MEM.word 8188 ≠ 8188
      ∧ (POP SP SP (startWorld (guardedMem 170 4096) 8192)).2 = .error ⟨false, 8192⟩
      ∧ (startWorld (guardedMem 170 4096) 8192).MEM.word 8192 = 2863311530
      ∧ (POP SP SP (startWorld (guardedMem 170 4096) 8192)).1.load SP ≠ 2863311534 := by
  refine ⟨rfl, ?_, rfl, ?_, ?_⟩ <;> decide

/-- Claim C18, amended: when the value operand of a stack macro is the stack
pointer itself, the already-updated pointer is used.  For every `S`, when the
memory subsystem accepts the write at `S - 4`, `PUSH(SP, SP)` stores the word
`S - 4`, which differs from `S`, at address `S - 4`; when it accepts the read
at `S`, `POP(SP, SP)` leaves `SP` equal to the word read at `S` plus 4
(32-bit wrapping), which differs from the word read. -/
theorem C18_sp_as_value (s : World) (hS : s.load SP < wordMod) :
    (s.MEM.writable (sub32 (s.load SP) 4) = true →
        (PUSH SP (.lv SP) s).2 = .ok ()
        ∧ (PUSH SP (.lv SP) s).1.MEM.word (sub32 (s.load SP) 4) = sub32 (s.load SP) 4
        ∧ sub32 (s.load SP) 4 ≠ s.load SP
        ∧ (PUSH SP (.lv SP) s).1.load SP = sub32 (s.load SP) 4)
      ∧ (s.MEM.readable (s.load SP) = true →
        (POP SP SP s).2 = .ok ()
        ∧ (POP SP SP s).1.load SP = add32 (s.MEM.word (s.load SP)) 4
        ∧ (POP SP SP s).1.load SP ≠ s.MEM.word (s.load SP)) := by
  have hT := toU32_of_lt hS
  have hne : sub32 (s.load SP) 4 ≠ s.load SP := by
    unfold sub32 wordMod at *; omega
  have hne2 : add32 (s.MEM.word (s.load SP)) 4 ≠ s.MEM.word (s.load SP) := by
    have := wordAt_lt s.MEM.bigEndian s.MEM.bytes (s.load SP)
    unfold TMemory.word add32
    unfold wordMod at *
    omega
  constructor
  · intro hw
    rw [PUSH_ok SP _ s hw]
    simp only [load_setMEM, load_assign_same, toU32_sub32, eval_lv, TMemory.word,
      wordAt_storeWord_same, toU32_toU32, true_and]
    exact ⟨hne, trivial⟩
  · intro hr
    rw [POP_ok SP _ s (by rw [hT]; exact hr)]
    simp only [hT, load_setMEM, load_assign_same, toU32_add32, TMemory.word,
      toU32_of_lt (wordAt_lt _ _ _), true_and]
    exact hne2

/-- Witness of `C18_sp_as_value`: from `SP = 0x1000` in a memory of zero
bytes, `PUSH(SP, SP)` stores `0xFFC` at `0xFFC` and `POP(SP, SP)` leaves
`SP = 4`. -/
theorem C18_sp_as_value_witness :
    (PUSH SP (.lv SP) (startWorld zeroMem 4096)).1.MEM.word 4092 = 4092
      ∧ (POP SP SP (startWorld zeroMem 4096)).1.load SP = 4 :=
  have h := C18_sp_as_value (startWorld zeroMem 4096) (by decide)
  ⟨(h.1 rfl).2.1, (h.2 rfl).2.1⟩

theorem Read_toU32 (m : TMemory) (a : Nat) : m.Read (toU32 a) = m.Read a := by
  unfold TMemory.Read
  rw [toU32_toU32]

theorem Write_toU32 (m : TMemory) (a w : Nat) : m.Write (toU32 a) w = m.Write a w := by
  unfold TMemory.Write
  rw [toU32_toU32]

/-- The state and result of a `POKE_W` whose write the memory subsystem accepts. -/
theorem POKE_W_ok (a w : RValue) (s : World) (h : s.MEM.writable (toU32 (s.eval a)) = true) :
    POKE_W a w s =
      ({ s with MEM := { s.MEM with
          log := s.MEM.log ++ [⟨true, toU32 (s.eval a)⟩],
          bytes := storeWord s.MEM.bigEndian s.MEM.bytes (toU32 (s.eval a))
            (toU32 (s.eval w)) } }, .ok ()) := by
  unfold POKE_W
  simp only []
  rw [Write_ok _ _ _ h]

/-- The state and result of a word-policy `SetG` whose write the memory
subsystem accepts. -/
theorem SetG_W_ok (G : Nat) (v : Int) (s : World)
    (h : s.MEM.writable (GLOBAL_GETSET_W.g G) = true) :
    GLOBAL_GETSET_W.SetG G v s =
      ({ s with MEM := { s.MEM with
          log := s.MEM.log ++ [⟨true, GLOBAL_GETSET_W.g G⟩],
          bytes := storeWord s.MEM.bigEndian s.MEM.bytes (GLOBAL_GETSET_W.g G)
            (toU32 (IntType.toWord v)) } }, .ok ()) := by
  have hg : toU32 (GLOBAL_GETSET_W.g G) = GLOBAL_GETSET_W.g G := toU32_toU32 G
  unfold GLOBAL_GETSET_W.SetG
  simp only []
  rw [Write_ok _ _ _ (by rw [hg]; exact h)]
  simp only [hg]

/-- Claim C12 as stated fails where the memory subsystem rejects the address
of the global: with only addresses below `0x1000` mapped and `G = 0x2000`,
after `SetG(1)` and `POKE_W(G, 2)` the getter raises the fault instead of
returning 2. -/
theorem C12_counterexample :
    (GLOBAL_GETSET_W.GetG 8192 ⟨32, false⟩
        (POKE_W (.lit 8192) (.lit 2)
          (GLOBAL_GETSET_W.SetG 8192 1 (startWorld (guardedMem 170 4096) 0)).1).1).2
      = .error ⟨false, 8192⟩ := by
  rfl

/-- Claim C12, amended: no generated accessor caches a value.  For every
memory state the getter of a global at address `G` is the conversion to `T`
of what `PEEK_W(G)` returns now (the same state afterwards, the converted
word or the same fault), and the setter is `POKE_W(G, (KUInt32)v)`; so, when
the memory subsystem accepts the write and the read at `G`, after `SetG(v1)`
followed by a raw `POKE_W(G, w)` the getter returns the conversion of `w`. -/
theorem C12_no_caching (G : Nat) (T : IntType) (v v1 : Int) (w : Nat) (s : World)
    (hw32 : w < wordMod) :
    GLOBAL_GETSET_W.GetG G T s = GetG_byPEEK G T s
      ∧ GLOBAL_GETSET_W.SetG G v s = SetG_byPOKE G v s
      ∧ (s.MEM.writable (GLOBAL_GETSET_W.g G) = true →
          s.MEM.readable (GLOBAL_GETSET_W.g G) = true →
          (GLOBAL_GETSET_W.GetG G T
            (POKE_W (.lit G) (.lit w) (GLOBAL_GETSET_W.SetG G v1 s).1).1).2
            = .ok (T.ofWord w)) := by
  have hg : toU32 (GLOBAL_GETSET_W.g G) = GLOBAL_GETSET_W.g G := toU32_toU32 G
  refine ⟨?_, ?_, fun hw hr => ?_⟩
  · unfold GLOBAL_GETSET_W.GetG GetG_byPEEK PEEK_W getResult GLOBAL_GETSET_W.g
    rw [Read_toU32]
    generalize s.MEM.Read G = r
    rcases r with ⟨m, e | w⟩ <;> rfl
  · unfold GLOBAL_GETSET_W.SetG SetG_byPOKE POKE_W GLOBAL_GETSET_W.g
    simp only [eval_lit, Write_toU32]
  · rw [SetG_W_ok G v1 s hw]
    rw [POKE_W_ok _ _ _ (by simp only [eval_lit]; exact hw)]
    unfold GLOBAL_GETSET_W.GetG
    rw [getResult_Read_ok _ _ _ (by rw [hg]; exact hr)]
    simp only [eval_lit, toU32_toU32, TMemory.word, GLOBAL_GETSET_W.g, wordAt_storeWord_same,
      toU32_of_lt hw32]

/-- Witness of `C12_no_caching`: after `SetG(1)` and `POKE_W(G, 2)` at
`G = 0x1000` the getter of an unsigned 32-bit global returns 2. -/
theorem C12_no_caching_witness :
    (GLOBAL_GETSET_W.GetG 4096 ⟨32, false⟩
        (POKE_W (.lit 4096) (.lit 2)
          (GLOBAL_GETSET_W.SetG 4096 1 (startWorld zeroMem 0)).1).1).2 = .ok 2 :=
  (C12_no_caching 4096 ⟨32, false⟩ 0 1 2 (startWorld zeroMem 0) (by decide)).2.2 rfl rfl

/-- A read call, accepted or not, adds itself to the log and changes no byte. -/
theorem Read_effect (m : TMemory) (a : Nat) :
    (m.Read a).1.log = m.log ++ [⟨false, toU32 a⟩] ∧ (m.Read a).1.bytes = m.bytes := by
  unfold TMemory.Read
  simp only []
  split_ifs <;> exact ⟨rfl, rfl⟩

/-- A write call, accepted or not, adds itself to the log and changes no
byte outside the four bytes of the addressed word. -/
theorem Write_effect (m : TMemory) (a w : Nat) :
    (m.Write a w).1.log = m.log ++ [⟨true, toU32 a⟩]
      ∧ ∀ x, (∀ i, i < 4 → x ≠ byteAddr m.bigEndian (toU32 a) i) →
          (m.Write a w).1.bytes x = m.bytes x := by
  unfold TMemory.Write
  simp only []
  split_ifs
  · exact ⟨rfl, fun x hx => storeWord_other _ _ _ _ _ hx⟩
  · exact ⟨rfl, fun x _ => rfl⟩

/-- Claim C13 as stated fails where the memory subsystem rejects the field
address: with only addresses below `0x1000` mapped, base `0x2000` and offset
8, `Get()` after `Set(5)` raises the fault instead of returning 5. -/
theorem C13_counterexample :
    (T_GETSET_MEMBER_W.Get 64 8 ⟨32, false⟩ 8192
        (T_GETSET_MEMBER_W.Set 64 8 8192 5 (startWorld (guardedMem 170 4096) 0)).1).2
      = .error ⟨false, 8200⟩ := by
  rfl

/-- Claim C13, amended: for every handle whose guest base address is `B` and
every byte offset `O`, the member getters make exactly one read call and the
member setters exactly one write call, at address `(B + O) mod 2^32`, which
depends on the handle and the offset only; the getters change no byte and
the setters none outside the four bytes of that word.  Consequently, when
the memory subsystem accepts the write and the read there, `Set(v)` followed
by `Get()` on the same handle returns `v`, for every value `v` of an integer
type of at most 32 bits. -/
theorem C13_member_address (ptrBits O this B : Nat) (T : IntType) (v : Int) (p : Nat)
    (s : World) (hB : toU32 (toUIntPtr ptrBits this) = B) :
    memberAddr ptrBits this O = (B + O) % 4294967296
      ∧ ((T_GETSET_MEMBER_W.Get ptrBits O T this s).1.MEM.log
            = s.MEM.log ++ [⟨false, (B + O) % 4294967296⟩]
          ∧ (T_GETSET_MEMBER_W.Get ptrBits O T this s).1.MEM.bytes = s.MEM.bytes)
      ∧ ((T_GETSET_MEMBER_P.Get ptrBits O this s).1.MEM.log
            = s.MEM.log ++ [⟨false, (B + O) % 4294967296⟩]
          ∧ (T_GETSET_MEMBER_P.Get ptrBits O this s).1.MEM.bytes = s.MEM.bytes)
      ∧ ((T_GETSET_MEMBER_W.Set ptrBits O this v s).1.MEM.log
            = s.MEM.log ++ [⟨true, (B + O) % 4294967296⟩]
          ∧ ∀ x, (∀ i, i < 4 → x ≠ byteAddr s.MEM.bigEndian ((B + O) % 4294967296) i) →
              (T_GETSET_MEMBER_W.Set ptrBits O this v s).1.MEM.bytes x = s.MEM.bytes x)
      ∧ ((T_GETSET_MEMBER_P.Set ptrBits O this p s).1.MEM.log
            = s.MEM.log ++ [⟨true, (B + O) % 4294967296⟩]
          ∧ ∀ x, (∀ i, i < 4 → x ≠ byteAddr s.MEM.bigEndian ((B + O) % 4294967296) i) →
              (T_GETSET_MEMBER_P.Set ptrBits O this p s).1.MEM.bytes x = s.MEM.bytes x)
      ∧ (0 < T.bits → T.bits ≤ 32 → T.holds v →
          s.MEM.writable ((B + O) % 4294967296) = true →
          s.MEM.readable ((B + O) % 4294967296) = true →
          (T_GETSET_MEMBER_W.Set ptrBits O this v s).2 = .ok ()
          ∧ (T_GETSET_MEMBER_W.Get ptrBits O T this
              (T_GETSET_MEMBER_W.Set ptrBits O this v s).1).2 = .ok v) := by
  have hA : memberAddr ptrBits this O = (B + O) % 4294967296 := by
    unfold memberAddr add32 wordMod
    rw [hB]
  have hm := toU32_memberAddr ptrBits this O
  refine ⟨hA, ?_, ?_, ?_, ?_, ?_⟩
  · rw [← hA]
    have h := Read_effect s.MEM (memberAddr ptrBits this O)
    rw [hm] at h
    exact h
  · rw [← hA]
    have h := Read_effect s.MEM (memberAddr ptrBits this O)
    rw [hm] at h
    exact h
  · rw [← hA]
    have h := Write_effect s.MEM (memberAddr ptrBits this O) (IntType.toWord v)
    rw [hm] at h
    exact h
  · rw [← hA]
    have h := Write_effect s.MEM (memberAddr ptrBits this O) (wordOfPtr ptrBits p)
    rw [hm] at h
    exact h
  · rw [← hA]
    intro hb0 hb hv hw hr
    have h := read_after_write s T.ofWord (memberAddr ptrBits this O) (IntType.toWord v)
      (by rw [hm]; exact hw) (by rw [hm]; exact hr)
    rw [toU32_of_lt (toWord_lt v), IntType.ofWord_toWord T v hb0 hb hv] at h
    exact h

/-- Witness of `C13_member_address`: the value -5 of a signed 16-bit field at
offset 8 of a handle whose guest base address is `0x2000`. -/
theorem C13_member_address_witness :
    memberAddr 64 8192 8 = 8200
      ∧ (T_GETSET_MEMBER_W.Get 64 8 ⟨16, true⟩ 8192
          (T_GETSET_MEMBER_W.Set 64 8 8192 (-5) (startWorld zeroMem 0)).1).2 = .ok (-5) :=
  have h := C13_member_address 64 8 8192 8192 ⟨16, true⟩ (-5) 0 (startWorld zeroMem 0)
    (by decide)
  ⟨h.1, (h.2.2.2.2.2 (by decide) (by decide) (by decide) rfl rfl).2⟩

theorem wordOfPtr_64 (p : Nat) (hp : p < 2 ^ 64) : wordOfPtr 64 p = p % 4294967296 := by
  unfold wordOfPtr toUIntPtr toU32 wordMod
  rw [Nat.mod_eq_of_lt hp]

theorem ptrOfWord_64 (w : Nat) (hw : w < 4294967296) : ptrOfWord 64 w = w := by
  unfold ptrOfWord toUIntPtr
  exact Nat.mod_eq_of_lt (lt_trans hw (by norm_num))

/-- The word an accepted write leaves at its address. -/
theorem word_after_Write (m : TMemory) (a w : Nat) (h : m.writable (toU32 a) = true) :
    (m.Write a w).1.word (toU32 a) = toU32 w := by
  rw [Write_ok _ _ _ h]
  simp only [TMemory.word, wordAt_storeWord_same, toU32_toU32]

/-- Claim C14 as stated fails where the memory subsystem rejects the address
of the global: with only addresses below `0x1000` mapped and `G = 0x2000`,
`Get()` after `Set(5)` raises the fault, so it does not equal 5 although 5 is
below `2^32`. -/
theorem C14_counterexample :
    (GLOBAL_GETSET_P.GetG 64 8192
        (GLOBAL_GETSET_P.SetG 64 8192 5 (startWorld (guardedMem 170 4096) 0)).1).2
        = .error ⟨false, 8192⟩
      ∧ (5 : Nat) < 4294967296 := by
  exact ⟨rfl, by decide⟩

/-- Claim C14, amended: for the pointer-width policy on a 64-bit host, for
every pointer-sized value `p` (including those at or above `2^32`), when the
memory subsystem accepts the write and the read at `G`, `Set(p)` stores the
low 32 bits of `p` in the guest word and a following `Get()` returns
`p mod 2^32` zero-extended to pointer width; hence `Get()` after `Set(p)`
equals `p` if and only if `p < 2^32`. -/
theorem C14_pointer_truncation (G p : Nat) (s : World) (hp : p < 2 ^ 64)
    (hw : s.MEM.writable (GLOBAL_GETSET_P.g G) = true)
    (hr : s.MEM.readable (GLOBAL_GETSET_P.g G) = true) :
    (GLOBAL_GETSET_P.SetG 64 G p s).2 = .ok ()
      ∧ (GLOBAL_GETSET_P.SetG 64 G p s).1.MEM.word (GLOBAL_GETSET_P.g G) = p % 4294967296
      ∧ (GLOBAL_GETSET_P.GetG 64 G (GLOBAL_GETSET_P.SetG 64 G p s).1).2
          = .ok (p % 4294967296)
      ∧ ((GLOBAL_GETSET_P.GetG 64 G (GLOBAL_GETSET_P.SetG 64 G p s).1).2 = .ok p
          ↔ p < 4294967296) := by
  have hg : toU32 (GLOBAL_GETSET_P.g G) = GLOBAL_GETSET_P.g G := toU32_toU32 G
  have hlt : p % 4294967296 < 4294967296 := Nat.mod_lt _ (by norm_num)
  have hword : toU32 (wordOfPtr 64 p) = p % 4294967296 := by
    rw [wordOfPtr_64 p hp]; exact toU32_of_lt hlt
  have h := read_after_write s (ptrOfWord 64) (GLOBAL_GETSET_P.g G) (wordOfPtr 64 p)
    (by rw [hg]; exact hw) (by rw [hg]; exact hr)
  rw [hword, ptrOfWord_64 _ hlt] at h
  have hst := word_after_Write s.MEM (GLOBAL_GETSET_P.g G) (wordOfPtr 64 p)
    (by rw [hg]; exact hw)
  rw [hg, hword] at hst
  have hget : (GLOBAL_GETSET_P.GetG 64 G (GLOBAL_GETSET_P.SetG 64 G p s).1).2
      = .ok (p % 4294967296) := h.2
  refine ⟨h.1, hst, hget, ?_⟩
  rw [hget]
  constructor
  · intro e
    have e2 : p % 4294967296 = p := by injection e
    omega
  · intro hlt2
    rw [Nat.mod_eq_of_lt hlt2]

/-- Witness of `C14_pointer_truncation`: the pointer value `2^32 + 7` through
a global at `0x1000` comes back as 7. -/
theorem C14_pointer_truncation_witness :
    (GLOBAL_GETSET_P.SetG 64 4096 4294967303 (startWorld zeroMem 0)).1.MEM.word 4096 = 7
      ∧ (GLOBAL_GETSET_P.GetG 64 4096
          (GLOBAL_GETSET_P.SetG 64 4096 4294967303 (startWorld zeroMem 0)).1).2 = .ok 7 :=
  have h := C14_pointer_truncation 4096 4294967303 (startWorld zeroMem 0) (by decide) rfl rfl
  ⟨h.2.1, h.2.2.1⟩

/-- One more `POP` after `n` successful ones is `n + 1` successful ones. -/
theorem popList_snoc (sp X : LValue) : ∀ (n : Nat) (s1 s2 s3 : World) (vs : List Nat),
    popList sp X n s1 = (s2, .ok vs) → POP sp X s2 = (s3, .ok ()) →
    popList sp X (n + 1) s1 = (s3, .ok (vs ++ [s3.load X])) := by
  intro n
  induction n with
  | zero =>
    intro s1 s2 s3 vs h1 h2
    simp only [popList, Prod.mk.injEq, Except.ok.injEq] at h1
    obtain ⟨rfl, rfl⟩ := h1
    simp only [popList, h2, List.nil_append]
  | succ n ih =>
    intro s1 s2 s3 vs h1 h2
    rw [popList] at h1
    rcases hP : POP sp X s1 with ⟨sa, e | u⟩
    · rw [hP] at h1
      simp at h1
    · cases u
      rw [hP] at h1
      simp only [] at h1
      rcases hQ : popList sp X n sa with ⟨sb, e | vs2⟩
      · rw [hQ] at h1
        simp at h1
      · rw [hQ] at h1
        simp only [Prod.mk.injEq, Except.ok.injEq] at h1
        obtain ⟨rfl, rfl⟩ := h1
        have h3 := ih sa sb s3 vs2 hQ h2
        rw [popList, hP]
        simp only []
        rw [h3]
        simp only [List.cons_append]

theorem sub32_mul_succ (S k : Nat) : sub32 (sub32 S 4) (4 * k) = sub32 S (4 * (k + 1)) := by
  unfold sub32 wordMod; omega

theorem wordsApart_below (S k : Nat) (h1 : 1 ≤ k) (h2 : k < 1073741824) :
    WordsApart (sub32 S (4 * k)) S := by
  unfold WordsApart sub32
  unfold wordMod at *
  omega

/-- What an accepted `PUSH` of a constant leaves behind. -/
theorem PUSH_ok_facts (sp : LValue) (W : Nat) (s : World) (hW : W < wordMod)
    (hw : s.MEM.writable (sub32 (s.load sp) 4) = true) :
    ∃ sa, PUSH sp (.lit W) s = (sa, .ok ())
      ∧ sa.load sp = sub32 (s.load sp) 4
      ∧ sa.MEM.readable = s.MEM.readable ∧ sa.MEM.writable = s.MEM.writable
      ∧ sa.MEM.bigEndian = s.MEM.bigEndian
      ∧ sa.MEM.word (sub32 (s.load sp) 4) = W
      ∧ ∀ c, WordsApart (sub32 (s.load sp) 4) c → sa.MEM.word c = s.MEM.word c := by
  refine ⟨_, PUSH_ok sp _ s hw, ?_, ?_, ?_, ?_, ?_, ?_⟩
  · simp only [load_setMEM, load_assign_same, toU32_sub32]
  · simp only [MEM_assign]
  · simp only [MEM_assign]
  · simp only [MEM_assign]
  · simp only [MEM_assign, eval_lit, TMemory.word, wordAt_storeWord_same, toU32_toU32,
      toU32_of_lt hW]
  · intro c hc
    simp only [MEM_assign, TMemory.word, wordAt_storeWord_apart _ _ _ hc]

/-- What an accepted `POP` into an operand other than `sp` leaves behind. -/
theorem POP_ok_facts (sp X : LValue) (s : World) (hX : X ≠ sp) (hS : s.load sp < wordMod)
    (hr : s.MEM.readable (s.load sp) = true) :
    ∃ sd, POP sp X s = (sd, .ok ())
      ∧ sd.load sp = add32 (s.load sp) 4
      ∧ sd.load X = s.MEM.word (s.load sp)
      ∧ sd.MEM.readable = s.MEM.readable ∧ sd.MEM.writable = s.MEM.writable
      ∧ sd.MEM.bigEndian = s.MEM.bigEndian
      ∧ ∀ c, sd.MEM.word c = s.MEM.word c := by
  obtain ⟨h1, h2, h3, h4⟩ := POP_ok_state sp X s hX hS hr
  refine ⟨(POP sp X s).1, Prod.ext rfl h1, h2, h3, ?_, ?_, ?_, fun c => ?_⟩
  · rw [h4]
  · rw [h4]
  · rw [h4]
  · rw [TMemory.word, TMemory.word, h4]

/-- Pushing a list of words and popping as many restores the stack pointer,
yields the words in reverse order, and leaves every word that lies apart from
the pushed ones as it was. -/
theorem pushList_popList (sp X : LValue) (hX : X ≠ sp) : ∀ (ws : List Nat) (s : World),
    ws.length ≤ 1073741824 → s.load sp < wordMod → (∀ w ∈ ws, w < wordMod) →
    (∀ k, 1 ≤ k → k ≤ ws.length →
      s.MEM.writable (sub32 (s.load sp) (4 * k)) = true
      ∧ s.MEM.readable (sub32 (s.load sp) (4 * k)) = true) →
    ∃ s1 s2, pushList sp ws s = (s1, .ok ())
      ∧ popList sp X ws.length s1 = (s2, .ok ws.reverse)
      ∧ s2.load sp = s.load sp
      ∧ s2.MEM.readable = s.MEM.readable ∧ s2.MEM.writable = s.MEM.writable
      ∧ s2.MEM.bigEndian = s.MEM.bigEndian
      ∧ ∀ c, (∀ k, 1 ≤ k → k ≤ ws.length → WordsApart (sub32 (s.load sp) (4 * k)) c) →
          s2.MEM.word c = s.MEM.word c := by
  intro ws
  induction ws with
  | nil =>
    intro s _ _ _ _
    exact ⟨s, s, rfl, rfl, rfl, rfl, rfl, rfl, fun c _ => rfl⟩
  | cons w rest ih =>
    intro s hlen hS hws hacc
    simp only [List.length_cons] at hlen hacc ⊢
    have h41 : sub32 (s.load sp) (4 * 1) = sub32 (s.load sp) 4 := rfl
    have hacc1 := hacc 1 (le_refl 1) (by omega)
    rw [h41] at hacc1
    obtain ⟨sa, hPa, hsp, hrd, hwr, hbe, hword, hframe⟩ :=
      PUSH_ok_facts sp w s (hws w (List.mem_cons_self _ _)) hacc1.1
    have hSa : sa.load sp < wordMod := by rw [hsp, ← toU32_sub32]; exact toU32_lt _
    obtain ⟨sb, sc, hpush, hpop, hspc, hrdc, hwrc, hbec, hframec⟩ :=
      ih sa (by omega) hSa (fun v hv => hws v (List.mem_cons_of_mem _ hv))
        (fun k hk1 hk2 => by
          rw [hsp, sub32_mul_succ, hrd, hwr]
          exact hacc (k + 1) (by omega) (by omega))
    have hwc : sc.MEM.word (sub32 (s.load sp) 4) = w := by
      rw [hframec _ (fun k hk1 hk2 => by
        rw [hsp]
        exact wordsApart_below _ k hk1 (by omega))]
      exact hword
    obtain ⟨sd, hPd, hspd, hXd, hrdd, hwrd, hbed, hframed⟩ :=
      POP_ok_facts sp X sc hX (by rw [hspc]; exact hSa)
        (by rw [hspc, hsp, hrdc, hrd]; exact hacc1.2)
    refine ⟨sb, sd, ?_, ?_, ?_, ?_, ?_, ?_, ?_⟩
    · rw [pushList, hPa]
      exact hpush
    · have h := popList_snoc sp X rest.length sb sc sd rest.reverse hpop hPd
      rw [h, hXd, hspc, hsp, hwc, List.reverse_cons]
    · rw [hspd, hspc, hsp]
      exact add32_sub32_cancel hS
    · rw [hrdd, hrdc, hrd]
    · rw [hwrd, hwrc, hwr]
    · rw [hbed, hbec, hbe]
    · intro c hc
      rw [hframed, hframec, hframe]
      · exact hc 1 (le_refl 1) (by omega)
      · intro k hk1 hk2
        rw [hsp, sub32_mul_succ]
        exact hc (k + 1) (by omega) (by omega)

/-- Claim C15: LIFO order.  For every starting stack pointer `S` and every
list of words `w1 .. wn` with `n ≤ 2^30`, when the memory subsystem accepts
every access (the writes and the reads at `S - 4`, ..., `S - 4n`), pushing
`w1, ..., wn` in order with `PUSH` succeeds, popping `n` times with `POP`
(into an operand other than `sp`) then yields `wn, ..., w1`, and `sp` is
left equal to `S`. -/
theorem C15_lifo (sp X : LValue) (ws : List Nat) (s : World) (hX : X ≠ sp)
    (hn : ws.length ≤ 1073741824) (hS : s.load sp < wordMod) (hws : ∀ w ∈ ws, w < wordMod)
    (hacc : ∀ k, 1 ≤ k → k ≤ ws.length →
      s.MEM.writable (sub32 (s.load sp) (4 * k)) = true
      ∧ s.MEM.readable (sub32 (s.load sp) (4 * k)) = true) :
    (pushList sp ws s).2 = .ok ()
      ∧ (popList sp X ws.length (pushList sp ws s).1).2 = .ok ws.reverse
      ∧ (popList sp X ws.length (pushList sp ws s).1).1.load sp = s.load sp := by
  obtain ⟨s1, s2, h1, h2, h3, _⟩ := pushList_popList sp X hX ws s hn hS hws hacc
  rw [h1]
  refine ⟨rfl, ?_, ?_⟩
  · show (popList sp X ws.length s1).2 = .ok ws.reverse
    rw [h2]
  · show (popList sp X ws.length s1).1.load sp = s.load sp
    rw [h2]
    exact h3

/-- Witness of `C15_lifo`: the words 1, 2, 3 pushed from `SP = 0x1000` come
back as 3, 2, 1 and `SP` returns to `0x1000`. -/
theorem C15_lifo_witness :
    (popList SP R0 3 (pushList SP [1, 2, 3] (startWorld zeroMem 4096)).1).2 = .ok [3, 2, 1]
      ∧ (popList SP R0 3 (pushList SP [1, 2, 3] (startWorld zeroMem 4096)).1).1.load SP
          = 4096 :=
  (C15_lifo SP R0 [1, 2, 3] (startWorld zeroMem 4096) (by decide) (by decide) (by decide)
    (by decide) (fun _ _ _ => ⟨rfl, rfl⟩)).2

end NewtOS
